import Mathlib

/-!
# StateOS: context-switch trampoline, heap break and message-buffer interface

A verification development over three source files of StateOS:

* `kernel/GNUCC/oscore.c`    — `PendSV_Handler` (ARM Cortex-M, GNU assembler syntax),
* `port/.stm8/compiler/.csmc/oslibc.c` — `sbreak`,
* `kernel/inc/osmessagebuffer.h` — `struct __msg`, its initialisers and inline aliases.

Machine words are natural numbers reduced modulo `2^32 = 4294967296`.
Memory is byte addressed and little endian.
-/

namespace StateOS

/-! ## Byte memory -/

/-- Byte store: a cell index is mapped to the byte it holds. -/
abbrev Mem := Nat → Nat

/-- Write the bytes `bs` to consecutive cells starting at `a`; cell indices wrap modulo `M`. -/
def storeBytes (M : Nat) : Nat → List Nat → Mem → Mem
  | _, [], m => m
  | a, b :: bs, m => storeBytes M (a + 1) bs (fun x => if x = a % M then b % 256 else m x)

/-- Read `n` consecutive bytes starting at `a`; cell indices wrap modulo `M`. -/
def loadBytes (M : Nat) (m : Mem) : Nat → Nat → List Nat
  | _, 0 => []
  | a, n + 1 => m (a % M) % 256 :: loadBytes M m (a + 1) n

/-- The four bytes of a 32-bit word, least significant first. -/
def wordBytes (v : Nat) : List Nat :=
  [v % 256, v / 256 % 256, v / 65536 % 256, v / 16777216 % 256]

/-- Store one 32-bit word at byte address `a` (little endian, 32-bit address space). -/
def storeWord (a v : Nat) (m : Mem) : Mem :=
  storeBytes 4294967296 a (wordBytes v) m

/-- Load one 32-bit word from byte address `a` (little endian, 32-bit address space). -/
def loadWord (m : Mem) (a : Nat) : Nat :=
  m (a % 4294967296) % 256
    + 256 * (m ((a + 1) % 4294967296) % 256)
    + 65536 * (m ((a + 2) % 4294967296) % 256)
    + 16777216 * (m ((a + 3) % 4294967296) % 256)

/-- Store a register list at ascending addresses starting at `a`, lowest register first
    (the memory effect of `stm` / `stmdb` / `vstmdb` once the start address is known). -/
def storeWords : Nat → List Nat → Mem → Mem
  | _, [], m => m
  | a, w :: ws, m => storeWords (a + 4) ws (storeWord a w m)

/-! ## Cortex-M register state -/

/-- Register state of a Cortex-M core in handler mode together with memory.
    `msp` is the stack pointer named `sp` by the handler (handler mode always uses MSP),
    `psp` the process stack pointer, `n` and `z` the condition flags the handler tests
    (no instruction of the handler reads the carry or overflow flag),
    `fp i` the single-precision register `s<i>`.
    Loads and stores are defined at every address: alignment and bus faults are not part
    of this model. -/
structure Cpu where
  r0 : Nat
  r1 : Nat
  r2 : Nat
  r3 : Nat
  r4 : Nat
  r5 : Nat
  r6 : Nat
  r7 : Nat
  r8 : Nat
  r9 : Nat
  r10 : Nat
  r11 : Nat
  r12 : Nat
  msp : Nat
  psp : Nat
  lr : Nat
  pc : Nat
  n : Bool
  z : Bool
  fp : Nat → Nat
  mem : Mem

/-- Every integer register of the state holds a 32-bit value. -/
def Cpu.WF (s : Cpu) : Prop :=
  s.r4 < 4294967296 ∧ s.r5 < 4294967296 ∧ s.r6 < 4294967296 ∧ s.r7 < 4294967296 ∧
  s.r8 < 4294967296 ∧ s.r9 < 4294967296 ∧ s.r10 < 4294967296 ∧ s.r11 < 4294967296 ∧
  s.lr < 4294967296 ∧ s.msp < 4294967296 ∧ s.psp < 4294967296

instance (s : Cpu) : Decidable s.WF := by
  unfold Cpu.WF; infer_instance

/-- 32-bit subtraction of an immediate. -/
def sub32 (x k : Nat) : Nat := (x + (4294967296 - k % 4294967296)) % 4294967296

/-- 32-bit addition of an immediate. -/
def add32 (x k : Nat) : Nat := (x + k) % 4294967296

/-- 32-bit logical shift left. -/
def lsl32 (x k : Nat) : Nat := (x * 2 ^ k) % 4294967296

/-- Negative flag of a 32-bit result: its bit 31. -/
def flagN (v : Nat) : Bool := decide (2147483648 ≤ v % 4294967296)

/-- Zero flag of a 32-bit result. -/
def flagZ (v : Nat) : Bool := decide (v % 4294967296 = 0)

/-- The registers `s16 .. s31`, lowest first. -/
def fpHigh (fp : Nat → Nat) : List Nat := (List.range 16).map (fun i => fp (16 + i))

/-- Effect of `vldmia r0!, { s16 - s31 }` on the floating-point file. -/
def loadFpHigh (m : Mem) (a : Nat) (fp : Nat → Nat) : Nat → Nat :=
  fun i => if 16 ≤ i ∧ i < 32 then loadWord m (a + 4 * (i - 16)) else fp i

/-! ### The call `bl core_tsk_handler`

`core_tsk_handler` is a C function defined outside this file.  It is taken as a parameter:
any function from the state at the call to what a procedure-call-standard conforming callee
may leave behind.  The callee receives its argument in `r0` and returns its result in `r0`;
`r1-r3`, `r12`, `lr`, the flags and `s0-s15` are scratch; `r4-r11`, `sp` and `s16-s31`
are preserved; memory may change arbitrarily.  The callee does not write `PSP`. -/

/-- What a callee leaves in the caller-saved part of the state. -/
structure Clobber where
  r0 : Nat
  r1 : Nat
  r2 : Nat
  r3 : Nat
  r12 : Nat
  lr : Nat
  n : Bool
  z : Bool
  fpLow : Nat → Nat
  mem : Mem

/-- Execute `bl core_tsk_handler` with callee behaviour `core`. -/
def bl (core : Cpu → Clobber) (s : Cpu) : Cpu :=
  let c := core s
  { s with
    r0 := c.r0 % 4294967296, r1 := c.r1 % 4294967296, r2 := c.r2 % 4294967296,
    r3 := c.r3 % 4294967296, r12 := c.r12 % 4294967296, lr := c.lr % 4294967296,
    n := c.n, z := c.z,
    fp := fun i => if i < 16 then c.fpLow i else s.fp i,
    mem := c.mem }

/-- Build variants selected by the preprocessor in `oscore.c`. -/
inductive Build where
  | cortexM0   -- `__CORTEX_M < 3`
  | cortexM3   -- `__CORTEX_M >= 3`, `__FPU_USED == 0`
  | fpu        -- `__CORTEX_M >= 3`, `__FPU_USED != 0`
  deriving DecidableEq, Repr

/-- Lines 42-57 of `oscore.c`: the save sequence for `__CORTEX_M < 3`. -/
def save_m0 (s : Cpu) : Cpu :=
  let s := { s with r0 := s.psp }                                   -- mrs   r0, PSP
  let s := { s with r3 := s.lr }                                    -- mov   r3, lr
  let s := { s with r3 := lsl32 s.r3 29,                            -- lsl   r3, #29
                    n := flagN (lsl32 s.r3 29), z := flagZ (lsl32 s.r3 29) }
  let s := if s.n then s                                            -- bmi   priv_tsk_switch
    else
      let s := { s with r0 := s.msp }                               -- mov   r0, sp
      { s with msp := sub32 s.msp 36 }                              -- sub   sp, #36
  -- priv_tsk_switch:
  let s := { s with r0 := sub32 s.r0 36,                            -- sub   r0, #36
                    n := flagN (sub32 s.r0 36), z := flagZ (sub32 s.r0 36) }
  let s := { s with mem := storeWords s.r0 [s.r4, s.r5, s.r6, s.r7] s.mem,
                    r0 := add32 s.r0 16 }                           -- stm   r0!, { r4 - r7 }
  let s := { s with r3 := s.r8 }                                    -- mov   r3, r8
  let s := { s with r4 := s.r9 }                                    -- mov   r4, r9
  let s := { s with r5 := s.r10 }                                   -- mov   r5, r10
  let s := { s with r6 := s.r11 }                                   -- mov   r6, r11
  let s := { s with r7 := s.lr }                                    -- mov   r7, lr
  let s := { s with mem := storeWords s.r0 [s.r3, s.r4, s.r5, s.r6, s.r7] s.mem,
                    r0 := add32 s.r0 20 }                           -- stm   r0!, { r3 - r7 }
  { s with r0 := sub32 s.r0 36,                                     -- sub   r0, #36
           n := flagN (sub32 s.r0 36), z := flagZ (sub32 s.r0 36) }

/-- Lines 59-62, 69, 71 of `oscore.c`: the save sequence for Cortex-M3 and above, no FPU. -/
def save_m3 (s : Cpu) : Cpu :=
  let s := { s with z := flagZ (s.lr &&& 4), n := flagN (s.lr &&& 4) }  -- tst   lr, #4
  let s := if !s.z then                                             -- itee  ne
      { s with r0 := s.psp }                                        -- mrsne r0, PSP
    else
      let s := { s with r0 := s.msp }                               -- moveq r0, sp
      { s with msp := sub32 s.msp 36 }                              -- subeq sp, #36
  { s with                                                          -- stmdb r0!, { r4 - r11, lr }
    mem := storeWords (sub32 s.r0 36)
      [s.r4, s.r5, s.r6, s.r7, s.r8, s.r9, s.r10, s.r11, s.lr] s.mem,
    r0 := sub32 s.r0 36 }

/-- Lines 59-67, 71 of `oscore.c`: the save sequence for Cortex-M3 and above with FPU. -/
def save_fpu (s : Cpu) : Cpu :=
  let s := { s with z := flagZ (s.lr &&& 4), n := flagN (s.lr &&& 4) }  -- tst   lr, #4
  let s := if !s.z then                                             -- itee  ne
      { s with r0 := s.psp }                                        -- mrsne r0, PSP
    else
      let s := { s with r0 := s.msp }                               -- moveq r0, sp
      { s with msp := sub32 s.msp 100 }                             -- subeq sp, #100
  let s := { s with z := flagZ (s.lr &&& 16), n := flagN (s.lr &&& 16) }  -- tst   lr, #16
  let s := if s.z then                                              -- it    eq
      { s with mem := storeWords (sub32 s.r0 64) (fpHigh s.fp) s.mem,   -- vstmdbeq r0!, { s16 - s31 }
               r0 := sub32 s.r0 64 }
    else s
  { s with                                                          -- stmdb r0!, { r4 - r11, lr }
    mem := storeWords (sub32 s.r0 36)
      [s.r4, s.r5, s.r6, s.r7, s.r8, s.r9, s.r10, s.r11, s.lr] s.mem,
    r0 := sub32 s.r0 36 }

/-- Lines 75-92 of `oscore.c`: the restore sequence for `__CORTEX_M < 3`. -/
def restore_m0 (s : Cpu) : Cpu :=
  let s := { s with r0 := add32 s.r0 16,                            -- add   r0, #16
                    n := flagN (add32 s.r0 16), z := flagZ (add32 s.r0 16) }
  let s := { s with r3 := loadWord s.mem s.r0,                      -- ldm   r0!, { r3 - r7 }
                    r4 := loadWord s.mem (s.r0 + 4),
                    r5 := loadWord s.mem (s.r0 + 8),
                    r6 := loadWord s.mem (s.r0 + 12),
                    r7 := loadWord s.mem (s.r0 + 16),
                    r0 := add32 s.r0 20 }
  let s := { s with r8 := s.r3 }                                    -- mov   r8, r3
  let s := { s with r9 := s.r4 }                                    -- mov   r9, r4
  let s := { s with r10 := s.r5 }                                   -- mov   r10, r5
  let s := { s with r11 := s.r6 }                                   -- mov   r11, r6
  let s := { s with lr := s.r7 }                                    -- mov   lr, r7
  let s := { s with r0 := sub32 s.r0 36,                            -- sub   r0, #36
                    n := flagN (sub32 s.r0 36), z := flagZ (sub32 s.r0 36) }
  let s := { s with r4 := loadWord s.mem s.r0,                      -- ldm   r0!, { r4 - r7 }
                    r5 := loadWord s.mem (s.r0 + 4),
                    r6 := loadWord s.mem (s.r0 + 8),
                    r7 := loadWord s.mem (s.r0 + 12),
                    r0 := add32 s.r0 16 }
  let s := { s with r0 := add32 s.r0 20,                            -- add   r0, #20
                    n := flagN (add32 s.r0 20), z := flagZ (add32 s.r0 20) }
  let s := { s with r3 := s.lr }                                    -- mov   r3, lr
  let s := { s with r3 := lsl32 s.r3 29,                            -- lsl   r3, #29
                    n := flagN (lsl32 s.r3 29), z := flagZ (lsl32 s.r3 29) }
  if s.n then                                                       -- bmi   priv_tsk_enter
    -- priv_tsk_enter:
    let s := { s with psp := s.r0 }                                 -- msr   PSP, r0
    { s with pc := s.lr }                                           -- bx    lr
  else
    let s := { s with msp := s.r0 }                                 -- mov   sp, r0
    { s with pc := s.lr }                                           -- bx    lr

/-- Effect of `ldmia r0!, { r4 - r11, lr }`. -/
def ldmia_r4_r11_lr (s : Cpu) : Cpu :=
  { s with r4 := loadWord s.mem s.r0,
           r5 := loadWord s.mem (s.r0 + 4),
           r6 := loadWord s.mem (s.r0 + 8),
           r7 := loadWord s.mem (s.r0 + 12),
           r8 := loadWord s.mem (s.r0 + 16),
           r9 := loadWord s.mem (s.r0 + 20),
           r10 := loadWord s.mem (s.r0 + 24),
           r11 := loadWord s.mem (s.r0 + 28),
           lr := loadWord s.mem (s.r0 + 32),
           r0 := add32 s.r0 36 }

/-- Lines 100-104 of `oscore.c`: select the stack pointer of the incoming task and return. -/
def exit_m3 (s : Cpu) : Cpu :=
  let s := { s with z := flagZ (s.lr &&& 4), n := flagN (s.lr &&& 4) }  -- tst   lr, #4
  let s := if !s.z then                                             -- ite   ne
      { s with psp := s.r0 }                                        -- msrne PSP, r0
    else
      { s with msp := s.r0 }                                        -- moveq sp, r0
  { s with pc := s.lr }                                             -- bx    lr

/-- Lines 94, 100-104 of `oscore.c`: the restore sequence for Cortex-M3 and above, no FPU. -/
def restore_m3 (s : Cpu) : Cpu :=
  exit_m3 (ldmia_r4_r11_lr s)                                       -- ldmia r0!, { r4 - r11, lr }

/-- Lines 94-104 of `oscore.c`: the restore sequence for Cortex-M3 and above with FPU. -/
def restore_fpu (s : Cpu) : Cpu :=
  let s := ldmia_r4_r11_lr s                                        -- ldmia r0!, { r4 - r11, lr }
  let s := { s with z := flagZ (s.lr &&& 16), n := flagN (s.lr &&& 16) }  -- tst   lr, #16
  let s := if s.z then                                              -- it    eq
      { s with fp := loadFpHigh s.mem s.r0 s.fp,                    -- vldmiaeq r0!, { s16 - s31 }
               r0 := add32 s.r0 64 }
    else s
  exit_m3 s

/-- The instructions of `PendSV_Handler` before `bl core_tsk_handler`. -/
def PendSV_save : Build → Cpu → Cpu
  | .cortexM0 => save_m0
  | .cortexM3 => save_m3
  | .fpu => save_fpu

/-- The instructions of `PendSV_Handler` after `bl core_tsk_handler`. -/
def PendSV_restore : Build → Cpu → Cpu
  | .cortexM0 => restore_m0
  | .cortexM3 => restore_m3
  | .fpu => restore_fpu

/-- The whole handler: save, call the scheduler core, restore, `bx lr`. -/
def PendSV_Handler (b : Build) (core : Cpu → Clobber) (s : Cpu) : Cpu :=
  PendSV_restore b (bl core (PendSV_save b s))

/-- The stack pointer of the outgoing task: `PSP` if bit 2 of `lr` is set, else `MSP`. -/
def outgoingSP (s : Cpu) : Nat := if s.lr.testBit 2 then s.psp else s.msp

/-- A concrete entry state: thread on the process stack (`lr = 0xFFFFFFFD`),
    `PSP = 0x20001000`, `MSP = 0x20002000`. -/
def entryPSP : Cpu :=
  { r0 := 0, r1 := 1, r2 := 2, r3 := 3, r4 := 104, r5 := 105, r6 := 106, r7 := 107,
    r8 := 108, r9 := 109, r10 := 110, r11 := 111, r12 := 12,
    msp := 536879104, psp := 536875008, lr := 4294967293, pc := 0,
    n := false, z := false, fp := fun i => 1000 + i, mem := fun _ => 0 }

/-- A concrete entry state: thread on the main stack (`lr = 0xFFFFFFF9`),
    `MSP = 0x20002000` (8-byte aligned). -/
def entryMSP : Cpu := { entryPSP with lr := 4294967289 }

/-- A scheduler core that keeps the current task: it returns the pointer it was given,
    leaves memory alone and zeroes the scratch registers. -/
def coreSame (s : Cpu) : Clobber :=
  { r0 := s.r0, r1 := 0, r2 := 0, r3 := 0, r12 := 0, lr := 0, n := false, z := false,
    fpLow := fun _ => 0, mem := s.mem }

/-- Bytes by which the save step lowers `MSP` when the outgoing task runs on the main stack:
    the immediate of `sub sp, #36` / `subeq sp, #36` / `subeq sp, #100`. -/
def mspDrop : Build → Nat
  | .cortexM0 => 36
  | .cortexM3 => 36
  | .fpu => 100

/-- A scheduler core compiled with the prologue `push {r4}`: it stores the `r4` it received
    in the word below its stack pointer, and otherwise keeps the current task like
    `coreSame`. -/
def corePush (s : Cpu) : Clobber :=
  { r0 := s.r0, r1 := 0, r2 := 0, r3 := 0, r12 := 0, lr := 0, n := false, z := false,
    fpLow := fun _ => 0, mem := storeWord (sub32 s.msp 4) s.r4 s.mem }

/-- Size in bytes of the frame that the handler pushes for an exception return value `lr`:
    nine words `r4 .. r11, lr`, and in the FPU build sixteen more words `s16 .. s31` when
    bit 4 of `lr` is clear. -/
def frameSize (b : Build) (lr : Nat) : Nat :=
  match b with
  | .cortexM0 => 36
  | .cortexM3 => 36
  | .fpu => if lr.testBit 4 then 36 else 100

/-- The registers `s16 .. s31` hold 32-bit values. -/
def Cpu.WFfp (s : Cpu) : Prop := ∀ i, 16 ≤ i → i < 32 → s.fp i < 4294967296

/-- The integer part of a frame, `r4 .. r11, lr`, lowest address first. -/
def intFrame (s : Cpu) : List Nat :=
  [s.r4, s.r5, s.r6, s.r7, s.r8, s.r9, s.r10, s.r11, s.lr]

/-- A concrete entry state of the FPU build: thread on the process stack with an active
    floating-point context (`lr = 0xFFFFFFED`: bit 4 clear, bit 2 set). -/
def entryFP : Cpu := { entryPSP with lr := 4294967277 }

/-! ## `sbreak` (`oslibc.c`) -/

/-- Accesses that `sbreak` makes to shared state, in program order. -/
inductive Event where
  | lock       -- `port_sys_lock()`
  | unlock     -- `port_sys_unlock()`
  | brkRead    -- a read of the static `_brk`
  | brkWrite   -- a write of the static `_brk`
  deriving DecidableEq, Repr

/-- The static break pointer of `sbreak` together with the log of its accesses.
    Addresses are integers; pointer arithmetic is done by `ptrAdd`, in pointer width. -/
structure Heap where
  _brk : Int
  log : List Event

/-- The null pointer. -/
def NULL : Int := 0

/-- Initial state: `static char *_brk = _startmem;`. -/
def Heap.init (_startmem : Int) : Heap := { _brk := _startmem, log := [] }

/-- Modelled from the spec: `port_sys_lock` is defined outside the given sources; it enters
    the critical section, recorded as one event. -/
def port_sys_lock (h : Heap) : Heap := { h with log := h.log ++ [Event.lock] }

/-- Modelled from the spec: `port_sys_unlock` is defined outside the given sources; it
    leaves the critical section, recorded as one event. -/
def port_sys_unlock (h : Heap) : Heap := { h with log := h.log ++ [Event.unlock] }

/-- Pointer plus integer in pointer width: the sum wraps modulo `A`, the number of
    addresses a data pointer can hold (65536 with the 16-bit pointers of the STM8). -/
def ptrAdd (A : Int) (p n : Int) : Int := (p + n) % A

/-- Lines 38-56 of `oslibc.c`: returns the result pointer and the new static state.
    `A` is the number of addresses a data pointer can hold. -/
def sbreak (A : Int) (_endmem : Int) (size : Int) (h : Heap) : Int × Heap :=
  let brk := NULL                                             -- char * brk = NULL;
  let h := port_sys_lock h                                    -- port_sys_lock();
  let h := { h with log := h.log ++ [Event.brkRead] }         -- _brk + size ...
  let r :=
    if ptrAdd A h._brk size < _endmem then                    -- if (_brk + size < _endmem)
      let brk := h._brk                                       --   brk = _brk;
      let h := { h with log := h.log ++ [Event.brkRead] }
      let h := { h with _brk := ptrAdd A h._brk size,         --   _brk += size;
                        log := h.log ++ [Event.brkRead, Event.brkWrite] }
      (brk, h)
    else (brk, h)
  (r.1, port_sys_unlock r.2)                                  -- port_sys_unlock(); return brk;

/-- Nesting depth of the critical section after a log: entries minus exits. -/
def lockDepth : List Event → Int
  | [] => 0
  | Event.lock :: es => lockDepth es + 1
  | Event.unlock :: es => lockDepth es - 1
  | _ :: es => lockDepth es

/-- One call of `sbreak` as seen by its caller: the requested size, the pointer returned,
    and the value of the static `_brk` when the call returns. -/
structure Call where
  size : Int
  result : Int
  brk : Int
  deriving DecidableEq, Repr

/-- A sequence of `sbreak` calls with the given sizes, in order, starting from `h`. -/
def sbreakSeq (A _endmem : Int) : List Int → Heap → List Call
  | [], _ => []
  | size :: rest, h =>
    { size := size, result := (sbreak A _endmem size h).1,
      brk := (sbreak A _endmem size h).2._brk }
      :: sbreakSeq A _endmem rest (sbreak A _endmem size h).2

/-- No pointer overflow in a sequence of calls: at every call the sum `_brk + size` is
    below `A`, the number of addresses a pointer can hold. -/
def NoOverflow (A _endmem : Int) : List Int → Heap → Prop
  | [], _ => True
  | size :: rest, h =>
    h._brk + size < A ∧ NoOverflow A _endmem rest (sbreak A _endmem size h).2

/-- What one call does to the break `b`: it either succeeds (`b + size < _endmem`, returns
    `b`, break becomes `b + size`) or fails (returns `NULL`, break unchanged). -/
def CallStep (_endmem b : Int) (c : Call) : Prop :=
  (b + c.size < _endmem ∧ c.result = b ∧ c.brk = b + c.size) ∨
  (¬ b + c.size < _endmem ∧ c.result = NULL ∧ c.brk = b)

/-- A list of calls with non-negative sizes in which every call starts from the break left
    by the one before it, the first from `b`. -/
def CallChain (_endmem : Int) : Int → List Call → Prop
  | _, [] => True
  | b, c :: cs => 0 ≤ c.size ∧ CallStep _endmem b c ∧ CallChain _endmem c.brk cs

/-! ## Message buffer (`osmessagebuffer.h`) -/

/-- Line 49-61: `struct __msg`, fields in declaration order.  Pointers are addresses,
    `0` is the null pointer. -/
structure msg_t where
  queue : Nat
  res : Nat
  count : Nat
  limit : Nat
  head : Nat
  tail : Nat
  data : Nat
  size : Nat
  deriving DecidableEq, Repr

/-- Line 79: `#define _MSG_INIT( _limit, _data ) { 0, 0, 0, _limit, 0, 0, _data, 0 }`,
    a positional initialiser of `struct __msg`. -/
def _MSG_INIT (_limit _data : Nat) : msg_t := ⟨0, 0, 0, _limit, 0, 0, _data, 0⟩

/-- A `char` array object: where it lives, its `sizeof`, and its cells. -/
structure CharArray where
  addr : Nat
  len : Nat
  cell : Mem

/-- A message buffer object together with the array defined alongside it. -/
structure MsgObj where
  msg : msg_t
  data_ : CharArray

/-- Line 97: `#define _MSG_DATA( _limit ) (char[_limit]){ 0 }`, placed at `addr`. -/
def _MSG_DATA (addr _limit : Nat) : CharArray := { addr := addr, len := _limit, cell := fun _ => 0 }

/-- Lines 112-115: `OS_MSG( msg, limit )`; the array `msg##__buf` is placed at `addr` with
    cells `cells`. -/
def OS_MSG (addr : Nat) (cells : Mem) (limit : Nat) : MsgObj :=
  let msg__buf : CharArray := { addr := addr, len := limit, cell := cells }   -- char msg##__buf[limit];
  { msg := _MSG_INIT limit msg__buf.addr, data_ := msg__buf }

/-- Lines 129-132: `static_MSG( msg, limit )`. -/
def static_MSG (addr : Nat) (cells : Mem) (limit : Nat) : MsgObj :=
  let msg__buf : CharArray := { addr := addr, len := limit, cell := cells }   -- static char msg##__buf[limit];
  { msg := _MSG_INIT limit msg__buf.addr, data_ := msg__buf }

/-- Lines 150-151: `MSG_INIT( limit )` is `_MSG_INIT( limit, _MSG_DATA( limit ) )`. -/
def MSG_INIT (addr : Nat) (limit : Nat) : MsgObj :=
  let d := _MSG_DATA addr limit
  { msg := _MSG_INIT limit d.addr, data_ := d }

/-- Line 518: the constructor `baseMessageBuffer( _limit, _data )`. -/
def baseMessageBuffer (_limit _data : Nat) : msg_t := _MSG_INIT _limit _data

/-- Lines 551-559: `MessageBufferT<_limit>` with member `char data_[_limit]`. -/
def MessageBufferT (addr : Nat) (cells : Mem) (_limit : Nat) : MsgObj :=
  let data_ : CharArray := { addr := addr, len := _limit, cell := cells }
  { msg := baseMessageBuffer data_.len data_.addr, data_ := data_ }   -- (sizeof(data_), data_)

/-- Lines 573-581: `MessageBufferTT<_limit, T>` with member
    `char data_[_limit*(sizeof(unsigned)+sizeof(T))-sizeof(unsigned)]`;
    `U` is `sizeof(unsigned)` and `sizeofT` is `sizeof(T)`. -/
def MessageBufferTT (U : Nat) (addr : Nat) (cells : Mem) (_limit sizeofT : Nat) : MsgObj :=
  let data_ : CharArray := { addr := addr, len := _limit * (U + sizeofT) - U, cell := cells }
  { msg := baseMessageBuffer data_.len data_.addr, data_ := data_ }   -- (sizeof(data_), data_)

/-- Result of a message-buffer operation: it either completes inline with a return value
    and a new state, or continues in the scheduler (the caller is parked on the wait
    queue, or a parked peer has to be woken); the scheduler is outside this file. -/
inductive Outcome (α : Type) where
  | done (ret : Nat) (st : α)
  | scheduler

/-- The functions and constants that `osmessagebuffer.h` uses but only declares
    (their definitions live in `oskernel.h` and `osmessagebuffer.c`).  A read operation
    yields the new object and the bytes written to the caller's buffer; a write operation
    takes the bytes of the caller's buffer. -/
structure MsgApi where
  INFINITE : Nat
  msg_waitUntil : MsgObj → Nat → Nat → Outcome (MsgObj × List Nat)
  msg_waitFor : MsgObj → Nat → Nat → Outcome (MsgObj × List Nat)
  msg_take : MsgObj → Nat → Outcome (MsgObj × List Nat)
  msg_sendUntil : MsgObj → List Nat → Nat → Nat → Outcome MsgObj
  msg_sendFor : MsgObj → List Nat → Nat → Nat → Outcome MsgObj
  msg_give : MsgObj → List Nat → Nat → Outcome MsgObj
  msg_push : MsgObj → List Nat → Nat → Outcome MsgObj
  msg_count : MsgObj → Nat
  msg_space : MsgObj → Nat

/-- Line 315: `msg_wait` returns `msg_waitFor(msg, data, size, INFINITE)`. -/
def msg_wait (K : MsgApi) (msg : MsgObj) (size : Nat) : Outcome (MsgObj × List Nat) :=
  K.msg_waitFor msg size K.INFINITE

/-- Line 339: `msg_takeISR` returns `msg_take(msg, data, size)`. -/
def msg_takeISR (K : MsgApi) (msg : MsgObj) (size : Nat) : Outcome (MsgObj × List Nat) :=
  K.msg_take msg size

/-- Line 404: `msg_send` returns `msg_sendFor(msg, data, size, INFINITE)`. -/
def msg_send (K : MsgApi) (msg : MsgObj) (data : List Nat) (size : Nat) : Outcome MsgObj :=
  K.msg_sendFor msg data size K.INFINITE

/-- Line 428: `msg_giveISR` returns `msg_give(msg, data, size)`. -/
def msg_giveISR (K : MsgApi) (msg : MsgObj) (data : List Nat) (size : Nat) : Outcome MsgObj :=
  K.msg_give msg data size

/-- Line 453: `msg_pushISR` returns `msg_push(msg, data, size)`. -/
def msg_pushISR (K : MsgApi) (msg : MsgObj) (data : List Nat) (size : Nat) : Outcome MsgObj :=
  K.msg_push msg data size

/-- Line 472: `msg_countISR` returns `msg_count(msg)`. -/
def msg_countISR (K : MsgApi) (msg : MsgObj) : Nat := K.msg_count msg

/-- Line 491: `msg_spaceISR` returns `msg_space(msg)`. -/
def msg_spaceISR (K : MsgApi) (msg : MsgObj) : Nat := K.msg_space msg

/-! ### Message-buffer operations, from the specification

The operations below are defined in `osmessagebuffer.c`, which is not among the given
sources.  They follow §3 and §4.6 of the specification.  `U` is the width in bytes of the
length word in front of every frame (`sizeof(unsigned)`), `IMMEDIATE` the sentinel delay of
§4.3.  Other tasks are not represented: whenever an operation has to park the caller or to
wake a task parked on `queue`, its outcome is `Outcome.scheduler`. -/

/-- Modelled from the spec: the frame-fits rule of §4.6 (`osmessagebuffer.c` is missing),
    "a frame fits iff `prefix_size + payload ≤ limit - count`". -/
def frameFits (U : Nat) (m : msg_t) (payload : Nat) : Bool :=
  decide (U + payload ≤ m.limit - m.count)

/-- The `U` bytes of a little-endian length word. -/
def leBytes (U n : Nat) : List Nat := (List.range U).map (fun i => n / 256 ^ i % 256)

/-- The value of a little-endian byte string. -/
def leValue : List Nat → Nat
  | [] => 0
  | b :: bs => b % 256 + 256 * leValue bs

/-- Modelled from the spec: the "immediate action" of `send` in §4.6 (`osmessagebuffer.c` is
    missing): append the length word and the payload at `tail`, update `count`, set `size`
    if it was 0. -/
def putFrame (U : Nat) (o : MsgObj) (data : List Nat) (size : Nat) : MsgObj :=
  { msg := { o.msg with
      tail := (o.msg.tail + U + size) % o.msg.limit,
      count := o.msg.count + U + size,
      size := if o.msg.size = 0 then size else o.msg.size },
    data_ := { o.data_ with
      cell := storeBytes o.msg.limit o.msg.tail (leBytes U size ++ data.take size)
        o.data_.cell } }

/-- Modelled from the spec: the "immediate action" of `wait` in §4.6 (`osmessagebuffer.c` is
    missing): copy out the first frame truncated to the caller's `size`, discard its
    remainder, advance `head`, update `count`, refresh the cached `size`. -/
def getFrame (U : Nat) (o : MsgObj) (size : Nat) : MsgObj × List Nat :=
  let len := o.msg.size
  let out := loadBytes o.msg.limit o.data_.cell (o.msg.head + U) (min size len)
  let head := (o.msg.head + U + len) % o.msg.limit
  let count := o.msg.count - (U + len)
  let next := if count = 0 then 0 else leValue (loadBytes o.msg.limit o.data_.cell head U)
  ({ o with msg := { o.msg with head := head, count := count, size := next } }, out)

/-- Modelled from the spec: `take` of §4.6 (`osmessagebuffer.c` is missing): never waits,
    returns 0 if empty, otherwise acts as `wait`. -/
def spec_take (U : Nat) (o : MsgObj) (size : Nat) : Outcome (MsgObj × List Nat) :=
  if o.msg.count = 0 then Outcome.done 0 (o, [])
  else if o.msg.queue ≠ 0 then Outcome.scheduler
  else Outcome.done (getFrame U o size).2.length (getFrame U o size)

/-- Modelled from the spec: `waitFor` of §4.5/§4.6 (`osmessagebuffer.c` is missing): waits
    when `count == 0`; with `IMMEDIATE` it returns 0 instead of waiting. -/
def spec_waitFor (U IMMEDIATE : Nat) (o : MsgObj) (size delay : Nat) :
    Outcome (MsgObj × List Nat) :=
  if o.msg.count = 0 then
    if delay = IMMEDIATE then Outcome.done 0 (o, []) else Outcome.scheduler
  else spec_take U o size

/-- Modelled from the spec: `waitUntil` of §4.5/§4.6 (`osmessagebuffer.c` is missing): waits
    when `count == 0`. -/
def spec_waitUntil (U : Nat) (o : MsgObj) (size _time : Nat) : Outcome (MsgObj × List Nat) :=
  if o.msg.count = 0 then Outcome.scheduler else spec_take U o size

/-- Modelled from the spec: `give` of §4.6 (`osmessagebuffer.c` is missing): never waits,
    returns 0 if there is no room; writing `size == 0` is a no-op returning 0. -/
def spec_give (U : Nat) (o : MsgObj) (data : List Nat) (size : Nat) : Outcome MsgObj :=
  if size = 0 then Outcome.done 0 o
  else if frameFits U o.msg size then
    if o.msg.queue ≠ 0 then Outcome.scheduler else Outcome.done size (putFrame U o data size)
  else Outcome.done 0 o

/-- Modelled from the spec: `sendFor` of §4.5/§4.6 (`osmessagebuffer.c` is missing): waits
    when `count + prefix + size > limit`; `size == 0` and `size > limit` return 0 at once;
    with `IMMEDIATE` it returns 0 instead of waiting. -/
def spec_sendFor (U IMMEDIATE : Nat) (o : MsgObj) (data : List Nat) (size delay : Nat) :
    Outcome MsgObj :=
  if size = 0 ∨ size > o.msg.limit then Outcome.done 0 o
  else if frameFits U o.msg size then spec_give U o data size
  else if delay = IMMEDIATE then Outcome.done 0 o
  else Outcome.scheduler

/-- Modelled from the spec: `sendUntil` of §4.5/§4.6 (`osmessagebuffer.c` is missing). -/
def spec_sendUntil (U : Nat) (o : MsgObj) (data : List Nat) (size _time : Nat) :
    Outcome MsgObj :=
  if size = 0 ∨ size > o.msg.limit then Outcome.done 0 o
  else if frameFits U o.msg size then spec_give U o data size
  else Outcome.scheduler

/-- Discard oldest frames until a frame of `size` bytes fits or the buffer is empty. -/
def dropOldest (U : Nat) (size : Nat) : Nat → MsgObj → MsgObj
  | 0, o => o
  | n + 1, o =>
    if frameFits U o.msg size ∨ o.msg.count = 0 then o
    else dropOldest U size n (getFrame U o 0).1

/-- Modelled from the spec: `push` of §4.6 (`osmessagebuffer.c` is missing): never waits;
    while there is not enough room the oldest frame is discarded, then it acts as `give`. -/
def spec_push (U : Nat) (o : MsgObj) (data : List Nat) (size : Nat) : Outcome MsgObj :=
  if size = 0 ∨ size > o.msg.limit then Outcome.done 0 o
  else if o.msg.queue ≠ 0 then Outcome.scheduler
  else spec_give U (dropOldest U size o.msg.count o) data size

/-- Modelled from the spec: the kernel interface of §4.6 (`osmessagebuffer.c` and
    `oskernel.h` are missing), for a length word of `U` bytes and given sentinel delays;
    `msg_count` is "the size of the first message in the buffer" (header, line 460) and
    `msg_space` is `limit - count`. -/
def specApi (U IMMEDIATE INFINITE : Nat) : MsgApi :=
  { INFINITE := INFINITE
    msg_waitUntil := spec_waitUntil U
    msg_waitFor := spec_waitFor U IMMEDIATE
    msg_take := spec_take U
    msg_sendUntil := spec_sendUntil U
    msg_sendFor := spec_sendFor U IMMEDIATE
    msg_give := spec_give U
    msg_push := spec_push U
    msg_count := fun o => o.msg.size
    msg_space := fun o => o.msg.limit - o.msg.count }

/-- An empty message buffer with nobody waiting: nothing stored, no cached frame length,
    `head` and `tail` at the same offset (as they are after `_MSG_INIT` and after every
    frame written has been read), empty wait queue. -/
def MsgObj.IsEmpty (o : MsgObj) : Prop :=
  o.msg.count = 0 ∧ o.msg.size = 0 ∧ o.msg.head = o.msg.tail ∧ o.msg.queue = 0

/-- A byte sequence: every element is below 256. -/
def IsBytes (p : List Nat) : Prop := ∀ b, b ∈ p → b < 256

/-! ## Memory lemmas -/

theorem add_mod_ne_self (M a c : Nat) (h0 : 0 < c) (hc : c < M) : (a + c) % M ≠ a % M := by
  intro h
  have h1 : Nat.ModEq M (a + c) (a + 0) := by simpa [Nat.ModEq] using h
  have h2 : Nat.ModEq M c 0 := Nat.ModEq.add_left_cancel' a h1
  have h3 : c % M = 0 := by simpa [Nat.ModEq] using h2
  rw [Nat.mod_eq_of_lt hc] at h3
  omega

theorem storeBytes_outside (M : Nat) (bs : List Nat) :
    ∀ (a : Nat) (m : Mem) (x : Nat), (∀ k, k < bs.length → x ≠ (a + k) % M) →
      storeBytes M a bs m x = m x := by
  induction bs with
  | nil => intro a m x _; rfl
  | cons b bs ih =>
    intro a m x h
    simp only [storeBytes]
    rw [ih (a + 1) _ x]
    · have h0 := h 0 (by simp)
      simp only [Nat.add_zero] at h0
      simp [h0]
    · intro k hk
      have := h (k + 1) (by simpa using hk)
      rwa [show a + 1 + k = a + (k + 1) by omega]

theorem storeBytes_inside (M : Nat) (bs : List Nat) :
    ∀ (a : Nat) (m : Mem) (k : Nat), bs.length ≤ M → k < bs.length →
      storeBytes M a bs m ((a + k) % M) = bs.getD k 0 % 256 := by
  induction bs with
  | nil => intro a m k _ hk; simp at hk
  | cons b bs ih =>
    intro a m k hM hk
    simp only [List.length_cons] at hM hk
    simp only [storeBytes]
    cases k with
    | zero =>
      rw [storeBytes_outside]
      · simp
      · intro j hj
        simp only [Nat.add_zero]
        rw [show a + 1 + j = a + (j + 1) by omega]
        exact (add_mod_ne_self M a (j + 1) (by omega) (by omega)).symm
    | succ k =>
      rw [show a + (k + 1) = a + 1 + k by omega, ih (a + 1) _ k (by omega) (by omega)]
      simp

theorem loadBytes_length (M : Nat) (m : Mem) (n : Nat) :
    ∀ a, (loadBytes M m a n).length = n := by
  induction n with
  | zero => intro a; rfl
  | succ n ih => intro a; simp [loadBytes, ih]

theorem loadBytes_getD (M : Nat) (m : Mem) (n : Nat) :
    ∀ (a k : Nat), k < n → (loadBytes M m a n).getD k 0 = m ((a + k) % M) % 256 := by
  induction n with
  | zero => intro a k hk; omega
  | succ n ih =>
    intro a k hk
    cases k with
    | zero => simp [loadBytes]
    | succ k =>
      simp only [loadBytes, List.getD_cons_succ]
      rw [ih (a + 1) k (by omega), show a + 1 + k = a + (k + 1) by omega]

theorem storeWord_outside (a v : Nat) (m : Mem) (x : Nat)
    (h : ∀ k, k < 4 → x ≠ (a + k) % 4294967296) : storeWord a v m x = m x := by
  unfold storeWord
  apply storeBytes_outside
  intro k hk
  exact h k (by simpa [wordBytes] using hk)

theorem storeWord_inside (a v : Nat) (m : Mem) (k : Nat) (hk : k < 4) :
    storeWord a v m ((a + k) % 4294967296) = (wordBytes v).getD k 0 % 256 := by
  unfold storeWord
  apply storeBytes_inside
  · simp [wordBytes]
  · simpa [wordBytes] using hk

theorem loadWord_congr (m m' : Mem) (a : Nat)
    (h : ∀ k, k < 4 → m ((a + k) % 4294967296) = m' ((a + k) % 4294967296)) :
    loadWord m a = loadWord m' a := by
  unfold loadWord
  have h0 := h 0 (by omega)
  have h1 := h 1 (by omega)
  have h2 := h 2 (by omega)
  have h3 := h 3 (by omega)
  simp only [Nat.add_zero] at h0
  rw [h0, h1, h2, h3]

theorem loadWord_lt (m : Mem) (a : Nat) : loadWord m a < 4294967296 := by
  unfold loadWord
  omega

theorem loadWord_mod (m : Mem) (a b : Nat) (h : a % 4294967296 = b % 4294967296) :
    loadWord m a = loadWord m b := by
  unfold loadWord
  have e1 : (a + 1) % 4294967296 = (b + 1) % 4294967296 := by omega
  have e2 : (a + 2) % 4294967296 = (b + 2) % 4294967296 := by omega
  have e3 : (a + 3) % 4294967296 = (b + 3) % 4294967296 := by omega
  rw [h, e1, e2, e3]

theorem loadWord_storeWord (a v : Nat) (m : Mem) :
    loadWord (storeWord a v m) a = v % 4294967296 := by
  have h0 := storeWord_inside a v m 0 (by omega)
  have h1 := storeWord_inside a v m 1 (by omega)
  have h2 := storeWord_inside a v m 2 (by omega)
  have h3 := storeWord_inside a v m 3 (by omega)
  simp only [Nat.add_zero, wordBytes, List.getD_cons_zero, List.getD_cons_succ] at h0 h1 h2 h3
  unfold loadWord
  rw [h0, h1, h2, h3]
  omega

theorem storeWords_outside (ws : List Nat) :
    ∀ (a : Nat) (m : Mem) (x : Nat), (∀ k, k < 4 * ws.length → x ≠ (a + k) % 4294967296) →
      storeWords a ws m x = m x := by
  induction ws with
  | nil => intro a m x _; rfl
  | cons w ws ih =>
    intro a m x h
    simp only [List.length_cons] at h
    simp only [storeWords]
    rw [ih (a + 4) _ x, storeWord_outside]
    · intro k hk
      exact h k (by omega)
    · intro k hk
      have := h (k + 4) (by omega)
      rwa [show a + 4 + k = a + (k + 4) by omega]

theorem loadWord_storeWords (ws : List Nat) :
    ∀ (a : Nat) (m : Mem) (i w : Nat), 4 * ws.length ≤ 4294967296 → ws[i]? = some w →
      loadWord (storeWords a ws m) (a + 4 * i) = w % 4294967296 := by
  induction ws with
  | nil => intro a m i w _ hi; simp at hi
  | cons v ws ih =>
    intro a m i w hlen hi
    simp only [List.length_cons] at hlen
    simp only [storeWords]
    cases i with
    | zero =>
      simp only [List.getElem?_cons_zero, Option.some.injEq] at hi
      subst hi
      rw [Nat.mul_zero, Nat.add_zero, ← loadWord_storeWord a v m]
      apply loadWord_congr
      intro k hk
      apply storeWords_outside
      intro j hj
      omega
    | succ i =>
      simp only [List.getElem?_cons_succ] at hi
      rw [show a + 4 * (i + 1) = a + 4 + 4 * i by omega]
      exact ih (a + 4) _ i w (by omega) hi

theorem storeWord_addr_mod (a b v : Nat) (m : Mem) (h : a % 4294967296 = b % 4294967296) :
    storeWord a v m = storeWord b v m := by
  have e1 : (a + 1) % 4294967296 = (b + 1) % 4294967296 := by omega
  have e2 : (a + 1 + 1) % 4294967296 = (b + 1 + 1) % 4294967296 := by omega
  have e3 : (a + 1 + 1 + 1) % 4294967296 = (b + 1 + 1 + 1) % 4294967296 := by omega
  simp only [storeWord, wordBytes, storeBytes, h, e1, e2, e3]

theorem storeWords_addr_mod (ws : List Nat) :
    ∀ (a b : Nat) (m : Mem), a % 4294967296 = b % 4294967296 →
      storeWords a ws m = storeWords b ws m := by
  induction ws with
  | nil => intro a b m _; rfl
  | cons w ws ih =>
    intro a b m h
    simp only [storeWords]
    rw [storeWord_addr_mod a b w m h]
    exact ih (a + 4) (b + 4) _ (by omega)

theorem storeWords_append (ws₁ ws₂ : List Nat) :
    ∀ (a : Nat) (m : Mem),
      storeWords a (ws₁ ++ ws₂) m = storeWords (a + 4 * ws₁.length) ws₂ (storeWords a ws₁ m) := by
  induction ws₁ with
  | nil => intro a m; simp [storeWords]
  | cons w ws ih =>
    intro a m
    rw [List.cons_append]
    simp only [storeWords, List.length_cons]
    rw [ih (a + 4)]
    rw [show a + 4 + 4 * ws.length = a + 4 * (ws.length + 1) by omega]

/-! ## Flag lemmas -/

theorem and_two_pow_eq (x i : Nat) : x &&& 2 ^ i = if x.testBit i then 2 ^ i else 0 := by
  apply Nat.eq_of_testBit_eq
  intro j
  rw [Nat.testBit_and, Nat.testBit_two_pow]
  by_cases hb : x.testBit i = true
  · by_cases hj : i = j
    · subst hj; simp [hb]
    · simp [hb, hj, Nat.testBit_two_pow]
  · by_cases hj : i = j
    · subst hj; simp [hb]
    · simp [hb, hj]

theorem flagZ_and4 (x : Nat) : flagZ (x &&& 4) = !x.testBit 2 := by
  have h := and_two_pow_eq x 2
  norm_num at h
  rw [h]
  by_cases hb : x.testBit 2 = true <;> simp [hb, flagZ]

theorem flagZ_and16 (x : Nat) : flagZ (x &&& 16) = !x.testBit 4 := by
  have h := and_two_pow_eq x 4
  norm_num at h
  rw [h]
  by_cases hb : x.testBit 4 = true <;> simp [hb, flagZ]

theorem flagN_lsl29 (x : Nat) : flagN (lsl32 x 29) = x.testBit 2 := by
  rw [Nat.testBit_to_div_mod]
  unfold flagN lsl32
  norm_num
  omega

/-! ## The save sequences -/

/-- The integer frame pushed by the save step: `r4 .. r11, lr` as they are at handler entry. -/
theorem save_m3_mem (s : Cpu) :
    (save_m3 s).mem = storeWords (sub32 (outgoingSP s) 36)
      [s.r4, s.r5, s.r6, s.r7, s.r8, s.r9, s.r10, s.r11, s.lr] s.mem := by
  unfold save_m3 outgoingSP
  simp only [flagZ_and4]
  by_cases hb : s.lr.testBit 2 = true <;> simp [hb]

theorem save_m3_r0 (s : Cpu) : (save_m3 s).r0 = sub32 (outgoingSP s) 36 := by
  unfold save_m3 outgoingSP
  simp only [flagZ_and4]
  by_cases hb : s.lr.testBit 2 = true <;> simp [hb]

theorem save_m3_msp (s : Cpu) :
    (save_m3 s).msp = if s.lr.testBit 2 then s.msp else sub32 s.msp 36 := by
  unfold save_m3
  simp only [flagZ_and4]
  by_cases hb : s.lr.testBit 2 = true <;> simp [hb]

theorem save_m3_psp (s : Cpu) : (save_m3 s).psp = s.psp := by
  unfold save_m3
  simp only [flagZ_and4]
  by_cases hb : s.lr.testBit 2 = true <;> simp [hb]

theorem save_m0_r0 (s : Cpu) : (save_m0 s).r0 = sub32 (outgoingSP s) 36 := by
  unfold save_m0 outgoingSP
  simp only [flagN_lsl29]
  by_cases hb : s.lr.testBit 2 = true <;> simp [hb] <;> unfold sub32 add32 <;> omega

theorem save_m0_msp (s : Cpu) :
    (save_m0 s).msp = if s.lr.testBit 2 then s.msp else sub32 s.msp 36 := by
  unfold save_m0
  simp only [flagN_lsl29]
  by_cases hb : s.lr.testBit 2 = true <;> simp [hb]

theorem save_m0_psp (s : Cpu) : (save_m0 s).psp = s.psp := by
  unfold save_m0
  simp only [flagN_lsl29]
  by_cases hb : s.lr.testBit 2 = true <;> simp [hb]

theorem save_m0_mem (s : Cpu) :
    (save_m0 s).mem = storeWords (sub32 (outgoingSP s) 36)
      [s.r4, s.r5, s.r6, s.r7, s.r8, s.r9, s.r10, s.r11, s.lr] s.mem := by
  have happ := fun a => storeWords_append [s.r4, s.r5, s.r6, s.r7]
    [s.r8, s.r9, s.r10, s.r11, s.lr] a s.mem
  simp only [List.cons_append, List.nil_append, List.length_cons, List.length_nil] at happ
  rw [happ]
  unfold save_m0 outgoingSP
  simp only [flagN_lsl29]
  by_cases hb : s.lr.testBit 2 = true <;> simp [hb] <;>
    apply storeWords_addr_mod <;> unfold add32 <;> omega

theorem PendSV_save_mem (b : Build) (hb : b ≠ Build.fpu) (s : Cpu) :
    (PendSV_save b s).mem = storeWords (sub32 (outgoingSP s) 36)
      [s.r4, s.r5, s.r6, s.r7, s.r8, s.r9, s.r10, s.r11, s.lr] s.mem := by
  cases b with
  | cortexM0 => exact save_m0_mem s
  | cortexM3 => exact save_m3_mem s
  | fpu => exact absurd rfl hb

theorem PendSV_save_r0 (b : Build) (hb : b ≠ Build.fpu) (s : Cpu) :
    (PendSV_save b s).r0 = sub32 (outgoingSP s) 36 := by
  cases b with
  | cortexM0 => exact save_m0_r0 s
  | cortexM3 => exact save_m3_r0 s
  | fpu => exact absurd rfl hb

theorem PendSV_save_msp (b : Build) (hb : b ≠ Build.fpu) (s : Cpu) :
    (PendSV_save b s).msp = if s.lr.testBit 2 then s.msp else sub32 s.msp 36 := by
  cases b with
  | cortexM0 => exact save_m0_msp s
  | cortexM3 => exact save_m3_msp s
  | fpu => exact absurd rfl hb

theorem PendSV_save_psp (b : Build) (hb : b ≠ Build.fpu) (s : Cpu) :
    (PendSV_save b s).psp = s.psp := by
  cases b with
  | cortexM0 => exact save_m0_psp s
  | cortexM3 => exact save_m3_psp s
  | fpu => exact absurd rfl hb

theorem entryPSP_WF : entryPSP.WF := by
  unfold Cpu.WF entryPSP
  norm_num

/-- The frame written by the save step, as seen by word loads (no assumption on the
    register values: a load returns the stored register reduced to 32 bits). -/
theorem save_frame_loads (b : Build) (hb : b ≠ Build.fpu) (s : Cpu) (i w : Nat)
    (hi : [s.r4, s.r5, s.r6, s.r7, s.r8, s.r9, s.r10, s.r11, s.lr][i]? = some w) :
    loadWord (PendSV_save b s).mem (sub32 (outgoingSP s) 36 + 4 * i) = w % 4294967296 := by
  rw [PendSV_save_mem b hb s]
  exact loadWord_storeWords _ _ _ i w (by simp) hi

theorem save_frame_outside (b : Build) (hb : b ≠ Build.fpu) (s : Cpu) (x : Nat)
    (hx : ∀ k, k < 36 → x ≠ (sub32 (outgoingSP s) 36 + k) % 4294967296) :
    (PendSV_save b s).mem x = s.mem x := by
  rw [PendSV_save_mem b hb s]
  apply storeWords_outside
  intro k hk
  exact hx k (by simpa using hk)

/-- C1. Save step of `PendSV_Handler` in both non-FPU builds: with `S` the stack pointer of
    the outgoing task (`PSP` if bit 2 of `lr` is set, else `MSP`), at the call to
    `core_tsk_handler` the words at `S-36, S-32, .., S-4` are the entry values of
    `r4, r5, .., r11, lr`, `r0 = S-36`, and every byte outside the 36 bytes starting at
    `S-36` is unchanged.  Addresses are 32-bit (taken modulo `2^32`). -/
theorem C1_save_frame (b : Build) (hb : b ≠ Build.fpu) (s : Cpu) (hwf : s.WF) :
    let S := outgoingSP s
    let t := PendSV_save b s
    loadWord t.mem (sub32 S 36) = s.r4 ∧
    loadWord t.mem (sub32 S 36 + 4) = s.r5 ∧
    loadWord t.mem (sub32 S 36 + 8) = s.r6 ∧
    loadWord t.mem (sub32 S 36 + 12) = s.r7 ∧
    loadWord t.mem (sub32 S 36 + 16) = s.r8 ∧
    loadWord t.mem (sub32 S 36 + 20) = s.r9 ∧
    loadWord t.mem (sub32 S 36 + 24) = s.r10 ∧
    loadWord t.mem (sub32 S 36 + 28) = s.r11 ∧
    loadWord t.mem (sub32 S 36 + 32) = s.lr ∧
    t.r0 = sub32 S 36 ∧
    (36 ≤ S → S < 4294967296 → sub32 S 36 = S - 36) ∧
    (∀ x, (∀ k, k < 36 → x ≠ (sub32 S 36 + k) % 4294967296) → t.mem x = s.mem x) := by
  intro S t
  obtain ⟨h4, h5, h6, h7, h8, h9, h10, h11, hlr, _, _⟩ := hwf
  have ld := save_frame_loads b hb s
  refine ⟨?_, ?_, ?_, ?_, ?_, ?_, ?_, ?_, ?_, PendSV_save_r0 b hb s, ?_,
    save_frame_outside b hb s⟩
  · have := ld 0 s.r4 rfl
    rw [Nat.mul_zero, Nat.add_zero] at this
    rw [this, Nat.mod_eq_of_lt h4]
  · rw [ld 1 s.r5 rfl, Nat.mod_eq_of_lt h5]
  · rw [ld 2 s.r6 rfl, Nat.mod_eq_of_lt h6]
  · rw [ld 3 s.r7 rfl, Nat.mod_eq_of_lt h7]
  · rw [ld 4 s.r8 rfl, Nat.mod_eq_of_lt h8]
  · rw [ld 5 s.r9 rfl, Nat.mod_eq_of_lt h9]
  · rw [ld 6 s.r10 rfl, Nat.mod_eq_of_lt h10]
  · rw [ld 7 s.r11 rfl, Nat.mod_eq_of_lt h11]
  · rw [ld 8 s.lr rfl, Nat.mod_eq_of_lt hlr]
  · intro h1 h2
    unfold sub32
    omega

/-- Witness for C1 on the Cortex-M0 build at `entryPSP`: `r0 = 0x20001000 - 36`. -/
theorem C1_save_frame_witness :
    Build.cortexM0 ≠ Build.fpu ∧ entryPSP.WF ∧
      (PendSV_save Build.cortexM0 entryPSP).r0 = sub32 (outgoingSP entryPSP) 36 :=
  ⟨by decide, entryPSP_WF,
    (C1_save_frame Build.cortexM0 (by decide) entryPSP entryPSP_WF).2.2.2.2.2.2.2.2.2.1⟩

/-! ## The restore sequences -/

theorem restore_m3_spec (t : Cpu) :
    let e := restore_m3 t
    e.r4 = loadWord t.mem t.r0 ∧ e.r5 = loadWord t.mem (t.r0 + 4) ∧
    e.r6 = loadWord t.mem (t.r0 + 8) ∧ e.r7 = loadWord t.mem (t.r0 + 12) ∧
    e.r8 = loadWord t.mem (t.r0 + 16) ∧ e.r9 = loadWord t.mem (t.r0 + 20) ∧
    e.r10 = loadWord t.mem (t.r0 + 24) ∧ e.r11 = loadWord t.mem (t.r0 + 28) ∧
    e.lr = loadWord t.mem (t.r0 + 32) ∧ e.pc = e.lr ∧ e.mem = t.mem ∧
    (e.lr.testBit 2 = true → e.psp = add32 t.r0 36 ∧ e.msp = t.msp) ∧
    (e.lr.testBit 2 = false → e.msp = add32 t.r0 36 ∧ e.psp = t.psp) := by
  unfold restore_m3 exit_m3 ldmia_r4_r11_lr
  simp only [flagZ_and4]
  by_cases hb : (loadWord t.mem (t.r0 + 32)).testBit 2 = true <;> simp [hb]

theorem restore_m0_spec (t : Cpu) :
    let e := restore_m0 t
    e.r4 = loadWord t.mem t.r0 ∧ e.r5 = loadWord t.mem (t.r0 + 4) ∧
    e.r6 = loadWord t.mem (t.r0 + 8) ∧ e.r7 = loadWord t.mem (t.r0 + 12) ∧
    e.r8 = loadWord t.mem (t.r0 + 16) ∧ e.r9 = loadWord t.mem (t.r0 + 20) ∧
    e.r10 = loadWord t.mem (t.r0 + 24) ∧ e.r11 = loadWord t.mem (t.r0 + 28) ∧
    e.lr = loadWord t.mem (t.r0 + 32) ∧ e.pc = e.lr ∧ e.mem = t.mem ∧
    (e.lr.testBit 2 = true → e.psp = add32 t.r0 36 ∧ e.msp = t.msp) ∧
    (e.lr.testBit 2 = false → e.msp = add32 t.r0 36 ∧ e.psp = t.psp) := by
  have a0 : loadWord t.mem (sub32 (add32 (add32 t.r0 16) 20) 36) = loadWord t.mem t.r0 :=
    loadWord_mod _ _ _ (by unfold sub32 add32; omega)
  have a4 : loadWord t.mem (sub32 (add32 (add32 t.r0 16) 20) 36 + 4)
      = loadWord t.mem (t.r0 + 4) := loadWord_mod _ _ _ (by unfold sub32 add32; omega)
  have a8 : loadWord t.mem (sub32 (add32 (add32 t.r0 16) 20) 36 + 8)
      = loadWord t.mem (t.r0 + 8) := loadWord_mod _ _ _ (by unfold sub32 add32; omega)
  have a12 : loadWord t.mem (sub32 (add32 (add32 t.r0 16) 20) 36 + 12)
      = loadWord t.mem (t.r0 + 12) := loadWord_mod _ _ _ (by unfold sub32 add32; omega)
  have a16 : loadWord t.mem (add32 t.r0 16) = loadWord t.mem (t.r0 + 16) :=
    loadWord_mod _ _ _ (by unfold add32; omega)
  have a20 : loadWord t.mem (add32 t.r0 16 + 4) = loadWord t.mem (t.r0 + 20) :=
    loadWord_mod _ _ _ (by unfold add32; omega)
  have a24 : loadWord t.mem (add32 t.r0 16 + 8) = loadWord t.mem (t.r0 + 24) :=
    loadWord_mod _ _ _ (by unfold add32; omega)
  have a28 : loadWord t.mem (add32 t.r0 16 + 12) = loadWord t.mem (t.r0 + 28) :=
    loadWord_mod _ _ _ (by unfold add32; omega)
  have a32 : loadWord t.mem (add32 t.r0 16 + 16) = loadWord t.mem (t.r0 + 32) :=
    loadWord_mod _ _ _ (by unfold add32; omega)
  have asp : add32 (add32 (sub32 (add32 (add32 t.r0 16) 20) 36) 16) 20 = add32 t.r0 36 := by
    unfold sub32 add32; omega
  have hlt := loadWord_lt t.mem (t.r0 + 32)
  unfold restore_m0
  simp only [flagN_lsl29, a0, a4, a8, a12, a16, a20, a24, a28, a32, asp]
  by_cases hb : (loadWord t.mem (t.r0 + 32)).testBit 2 = true <;> simp [hb]

theorem PendSV_restore_spec (b : Build) (hb : b ≠ Build.fpu) (t : Cpu) :
    let e := PendSV_restore b t
    e.r4 = loadWord t.mem t.r0 ∧ e.r5 = loadWord t.mem (t.r0 + 4) ∧
    e.r6 = loadWord t.mem (t.r0 + 8) ∧ e.r7 = loadWord t.mem (t.r0 + 12) ∧
    e.r8 = loadWord t.mem (t.r0 + 16) ∧ e.r9 = loadWord t.mem (t.r0 + 20) ∧
    e.r10 = loadWord t.mem (t.r0 + 24) ∧ e.r11 = loadWord t.mem (t.r0 + 28) ∧
    e.lr = loadWord t.mem (t.r0 + 32) ∧ e.pc = e.lr ∧ e.mem = t.mem ∧
    (e.lr.testBit 2 = true → e.psp = add32 t.r0 36 ∧ e.msp = t.msp) ∧
    (e.lr.testBit 2 = false → e.msp = add32 t.r0 36 ∧ e.psp = t.psp) := by
  cases b with
  | cortexM0 => exact restore_m0_spec t
  | cortexM3 => exact restore_m3_spec t
  | fpu => exact absurd rfl hb

/-- C2. Restore step of `PendSV_Handler` in both non-FPU builds: with `p` the pointer that
    `core_tsk_handler` returns in `r0`, at handler exit `r4 .. r11, lr` hold the words stored
    at `p, p+4, .., p+32`, the stack pointer selected by bit 2 of the restored `lr` is
    `p+36`, and the handler branches to the restored `lr` whatever the call left in `lr`. -/
theorem C2_restore_frame (b : Build) (hb : b ≠ Build.fpu) (core : Cpu → Clobber) (s : Cpu) :
    let t := bl core (PendSV_save b s)
    let p := t.r0
    let e := PendSV_Handler b core s
    e.r4 = loadWord t.mem p ∧ e.r5 = loadWord t.mem (p + 4) ∧
    e.r6 = loadWord t.mem (p + 8) ∧ e.r7 = loadWord t.mem (p + 12) ∧
    e.r8 = loadWord t.mem (p + 16) ∧ e.r9 = loadWord t.mem (p + 20) ∧
    e.r10 = loadWord t.mem (p + 24) ∧ e.r11 = loadWord t.mem (p + 28) ∧
    e.lr = loadWord t.mem (p + 32) ∧
    (if e.lr.testBit 2 then e.psp else e.msp) = add32 p 36 ∧
    e.pc = loadWord t.mem (p + 32) := by
  intro t p e
  obtain ⟨h4, h5, h6, h7, h8, h9, h10, h11, hlr, hpc, _, hpsp, hmsp⟩ :=
    PendSV_restore_spec b hb t
  refine ⟨h4, h5, h6, h7, h8, h9, h10, h11, hlr, ?_, hpc.trans hlr⟩
  by_cases hbit : e.lr.testBit 2 = true
  · rw [if_pos hbit]
    exact (hpsp hbit).1
  · rw [if_neg hbit]
    exact (hmsp (by simpa using hbit)).1

/-- Witness for C2 on the Cortex-M3 build: the handler leaves through the word at `p+32`. -/
theorem C2_restore_frame_witness :
    Build.cortexM3 ≠ Build.fpu ∧
      (PendSV_Handler Build.cortexM3 coreSame entryPSP).pc
        = loadWord (bl coreSame (PendSV_save Build.cortexM3 entryPSP)).mem
            ((bl coreSame (PendSV_save Build.cortexM3 entryPSP)).r0 + 32) :=
  ⟨by decide, (C2_restore_frame Build.cortexM3 (by decide) coreSame entryPSP).2.2.2.2.2.2.2.2.2.2⟩

/-- C3. Save/restore round trip of `PendSV_Handler` in both non-FPU builds: if
    `core_tsk_handler` returns the pointer it received and leaves the 36 bytes of the saved
    frame unchanged, the handler exits with `r4 .. r11`, `lr`, `PSP` and `MSP` equal to their
    values at handler entry. -/
theorem C3_round_trip (b : Build) (hb : b ≠ Build.fpu) (core : Cpu → Clobber) (s : Cpu)
    (hwf : s.WF)
    (hret : (core (PendSV_save b s)).r0 = (PendSV_save b s).r0)
    (hframe : ∀ k, k < 36 →
      (core (PendSV_save b s)).mem (((PendSV_save b s).r0 + k) % 4294967296)
        = (PendSV_save b s).mem (((PendSV_save b s).r0 + k) % 4294967296)) :
    let e := PendSV_Handler b core s
    e.r4 = s.r4 ∧ e.r5 = s.r5 ∧ e.r6 = s.r6 ∧ e.r7 = s.r7 ∧ e.r8 = s.r8 ∧ e.r9 = s.r9 ∧
    e.r10 = s.r10 ∧ e.r11 = s.r11 ∧ e.lr = s.lr ∧ e.psp = s.psp ∧ e.msp = s.msp := by
  intro e
  have sv := save_frame_loads b hb s
  have hr0 : (PendSV_save b s).r0 = sub32 (outgoingSP s) 36 := PendSV_save_r0 b hb s
  have hlt : sub32 (outgoingSP s) 36 < 4294967296 := by unfold sub32; omega
  have tr0 : (bl core (PendSV_save b s)).r0 = sub32 (outgoingSP s) 36 := by
    show (core (PendSV_save b s)).r0 % 4294967296 = _
    rw [hret, hr0, Nat.mod_eq_of_lt hlt]
  have tmem : (bl core (PendSV_save b s)).mem = (core (PendSV_save b s)).mem := rfl
  have tmsp : (bl core (PendSV_save b s)).msp = (PendSV_save b s).msp := rfl
  have tpsp : (bl core (PendSV_save b s)).psp = (PendSV_save b s).psp := rfl
  have ld : ∀ j, j + 4 ≤ 36 →
      loadWord (bl core (PendSV_save b s)).mem (sub32 (outgoingSP s) 36 + j)
        = loadWord (PendSV_save b s).mem (sub32 (outgoingSP s) 36 + j) := by
    intro j hj
    rw [tmem]
    apply loadWord_congr
    intro k hk
    have := hframe (j + k) (by omega)
    rw [hr0] at this
    rw [show sub32 (outgoingSP s) 36 + j + k = sub32 (outgoingSP s) 36 + (j + k) by omega]
    exact this
  obtain ⟨h4, h5, h6, h7, h8, h9, h10, h11, hlr, _, _, hpsp, hmsp⟩ :=
    PendSV_restore_spec b hb (bl core (PendSV_save b s))
  rw [tr0] at h4 h5 h6 h7 h8 h9 h10 h11 hlr hpsp hmsp
  obtain ⟨w4, w5, w6, w7, w8, w9, w10, w11, wlr, _, _⟩ := id hwf
  have l0 := ld 0 (by omega)
  have s0 := sv 0 s.r4 rfl
  rw [Nat.add_zero] at l0
  rw [Nat.mul_zero, Nat.add_zero] at s0
  rw [l0, s0, Nat.mod_eq_of_lt w4] at h4
  rw [ld 4 (by omega), sv 1 s.r5 rfl, Nat.mod_eq_of_lt w5] at h5
  rw [ld 8 (by omega), sv 2 s.r6 rfl, Nat.mod_eq_of_lt w6] at h6
  rw [ld 12 (by omega), sv 3 s.r7 rfl, Nat.mod_eq_of_lt w7] at h7
  rw [ld 16 (by omega), sv 4 s.r8 rfl, Nat.mod_eq_of_lt w8] at h8
  rw [ld 20 (by omega), sv 5 s.r9 rfl, Nat.mod_eq_of_lt w9] at h9
  rw [ld 24 (by omega), sv 6 s.r10 rfl, Nat.mod_eq_of_lt w10] at h10
  rw [ld 28 (by omega), sv 7 s.r11 rfl, Nat.mod_eq_of_lt w11] at h11
  rw [ld 32 (by omega), sv 8 s.lr rfl, Nat.mod_eq_of_lt wlr] at hlr
  have elr : e.lr = s.lr := hlr
  have hS : add32 (sub32 (outgoingSP s) 36) 36 = outgoingSP s := by
    have : outgoingSP s < 4294967296 := by
      obtain ⟨_, _, _, _, _, _, _, _, _, hm, hp⟩ := hwf
      unfold outgoingSP
      split <;> assumption
    unfold add32 sub32
    omega
  refine ⟨h4, h5, h6, h7, h8, h9, h10, h11, hlr, ?_, ?_⟩
  · by_cases hbit : s.lr.testBit 2 = true
    · have := (hpsp (by rw [hlr]; exact hbit)).1
      rw [hS] at this
      rw [show e.psp = _ from this]
      unfold outgoingSP
      rw [if_pos hbit]
    · have := (hmsp (by rw [hlr]; simpa using hbit)).2
      rw [show e.psp = _ from this, tpsp]
      exact PendSV_save_psp b hb s
  · by_cases hbit : s.lr.testBit 2 = true
    · have := (hpsp (by rw [hlr]; exact hbit)).2
      rw [show e.msp = _ from this, tmsp, PendSV_save_msp b hb s, if_pos hbit]
    · have := (hmsp (by rw [hlr]; simpa using hbit)).1
      rw [hS] at this
      rw [show e.msp = _ from this]
      unfold outgoingSP
      rw [if_neg hbit]

/-- Witness for C3 on the Cortex-M0 build with a core that keeps the current task. -/
theorem C3_round_trip_witness :
    Build.cortexM0 ≠ Build.fpu ∧ entryPSP.WF ∧
      (PendSV_Handler Build.cortexM0 coreSame entryPSP).lr = 4294967293 ∧
      (PendSV_Handler Build.cortexM0 coreSame entryPSP).psp = 536875008 ∧
      (PendSV_Handler Build.cortexM0 coreSame entryPSP).msp = 536879104 :=
  have h := C3_round_trip Build.cortexM0 (by decide) coreSame entryPSP entryPSP_WF rfl
    (fun _ _ => rfl)
  ⟨by decide, entryPSP_WF, h.2.2.2.2.2.2.2.2.1, h.2.2.2.2.2.2.2.2.2.1, h.2.2.2.2.2.2.2.2.2.2⟩

/-! ## Stack pointer at the call -/

theorem save_fpu_msp (s : Cpu) :
    (save_fpu s).msp = if s.lr.testBit 2 then s.msp else sub32 s.msp 100 := by
  unfold save_fpu
  simp only [flagZ_and4, flagZ_and16]
  by_cases hb : s.lr.testBit 2 = true <;> by_cases hc : s.lr.testBit 4 = true <;> simp [hb, hc]

theorem PendSV_save_msp_all (b : Build) (s : Cpu) :
    (PendSV_save b s).msp = if s.lr.testBit 2 then s.msp else sub32 s.msp (mspDrop b) := by
  cases b with
  | cortexM0 => exact save_m0_msp s
  | cortexM3 => exact save_m3_msp s
  | fpu => exact save_fpu_msp s

/-- C8, counterexample. With `lr = 0xFFFFFFF9` (bit 2 clear) and `MSP = 0x20002000`
    (8-byte aligned) at entry, `MSP` at `bl core_tsk_handler` is 4 modulo 8 in all three
    builds. -/
theorem C8_counterexample :
    entryMSP.msp % 8 = 0 ∧
      (PendSV_save Build.cortexM0 entryMSP).msp % 8 = 4 ∧
      (PendSV_save Build.cortexM3 entryMSP).msp % 8 = 4 ∧
      (PendSV_save Build.fpu entryMSP).msp % 8 = 4 := by
  refine ⟨by decide, ?_, ?_, ?_⟩ <;> rw [PendSV_save_msp_all] <;> decide

/-- C8, amended. If `MSP` is 8-byte aligned at entry then, in every build, when bit 2 of `lr`
    is set `MSP` is unchanged and hence 8-byte aligned at `bl core_tsk_handler`; when bit 2
    is clear `MSP` at the call is the entry value lowered by 36 bytes (by 100 bytes in the
    FPU build) and is 4-byte aligned. -/
theorem C8_msp_at_call (b : Build) (s : Cpu) (hal : s.msp % 8 = 0) :
    let t := PendSV_save b s
    (s.lr.testBit 2 = true → t.msp = s.msp ∧ t.msp % 8 = 0) ∧
    (s.lr.testBit 2 = false → t.msp = sub32 s.msp (mspDrop b) ∧ t.msp % 4 = 0) := by
  intro t
  have h : t.msp = _ := PendSV_save_msp_all b s
  constructor
  · intro hb
    rw [if_pos hb] at h
    exact ⟨h, by rw [h]; exact hal⟩
  · intro hb
    rw [if_neg (by simp [hb])] at h
    refine ⟨h, ?_⟩
    rw [h]
    cases b <;> simp only [mspDrop, sub32] <;> omega

/-- Witness for the amended C8 at `entryMSP` on the FPU build: `MSP` is lowered by 100. -/
theorem C8_msp_at_call_witness :
    entryMSP.msp % 8 = 0 ∧ (PendSV_save Build.fpu entryMSP).msp = 536879004 :=
  ⟨by decide, ((C8_msp_at_call Build.fpu entryMSP (by decide)).2 (by decide)).1.trans (by decide)⟩

/-! ## `_MSG_INIT` -/

/-- C4. `_MSG_INIT(limit, data)` yields `queue = null`, `res = null`, `count = 0`,
    `limit = limit`, `head = 0`, `tail = 0`, `data = data`, `size = 0`; hence
    `count ≤ limit`, `count == 0 ⇔ size == 0`, and the wait queue is empty. -/
theorem C4_MSG_INIT (limit data : Nat) :
    let m : msg_t := _MSG_INIT limit data
    m.queue = 0 ∧ m.res = 0 ∧ m.count = 0 ∧ m.limit = limit ∧ m.head = 0 ∧ m.tail = 0 ∧
    m.data = data ∧ m.size = 0 ∧
    m.count ≤ m.limit ∧ (m.count = 0 ↔ m.size = 0) := by
  simp [_MSG_INIT]

/-! ## `sbreak` -/

theorem sbreak_fst (A _endmem size : Int) (h : Heap) :
    (sbreak A _endmem size h).1
      = if ptrAdd A h._brk size < _endmem then h._brk else NULL := by
  unfold sbreak port_sys_lock
  by_cases hc : ptrAdd A h._brk size < _endmem <;> simp [hc]

theorem sbreak_brk (A _endmem size : Int) (h : Heap) :
    (sbreak A _endmem size h).2._brk
      = if ptrAdd A h._brk size < _endmem then ptrAdd A h._brk size else h._brk := by
  unfold sbreak port_sys_lock port_sys_unlock
  by_cases hc : ptrAdd A h._brk size < _endmem <;> simp [hc]

/-- Where the sum stays inside the address space, pointer addition is integer addition. -/
theorem ptrAdd_eq (A p n : Int) (h0 : 0 ≤ p + n) (h1 : p + n < A) : ptrAdd A p n = p + n :=
  Int.emod_eq_of_lt h0 h1

/-! ## Constructors and aliases of the message buffer -/

/-- C9. Every way of constructing a message buffer sets `limit` to the `sizeof` of the
    array that `data` points to, so every offset in `[0, limit)` is a valid index of it. -/
theorem C9_limit_is_array_length (U addr : Nat) (cells : Mem) (limit sizeofT : Nat) :
    (∀ o, o ∈ [OS_MSG addr cells limit, static_MSG addr cells limit, MSG_INIT addr limit,
          MessageBufferT addr cells limit, MessageBufferTT U addr cells limit sizeofT] →
      o.msg.limit = o.data_.len ∧ o.msg.data = o.data_.addr ∧
      ∀ off, off < o.msg.limit → off < o.data_.len) ∧
    (OS_MSG addr cells limit).data_.len = limit ∧
    (static_MSG addr cells limit).data_.len = limit ∧
    (MSG_INIT addr limit).data_.len = limit ∧
    (MessageBufferT addr cells limit).data_.len = limit ∧
    (MessageBufferTT U addr cells limit sizeofT).data_.len = limit * (U + sizeofT) - U := by
  refine ⟨?_, rfl, rfl, rfl, rfl, rfl⟩
  intro o ho
  simp only [List.mem_cons, List.mem_singleton, List.mem_nil_iff, or_false] at ho
  rcases ho with h | h | h | h | h <;> subst h <;>
    exact ⟨rfl, rfl, fun _ hoff => hoff⟩

/-- C10. `msg_wait` is `msg_waitFor` with `INFINITE`, `msg_send` is `msg_sendFor` with
    `INFINITE`, each ISR alias returns the result of its base operation on the same
    arguments, and no ISR alias depends on a blocking operation: replacing
    `msg_waitFor`, `msg_waitUntil`, `msg_sendFor` and `msg_sendUntil` by arbitrary other
    functions leaves every ISR alias unchanged. -/
theorem C10_aliases (K : MsgApi) (msg : MsgObj) (data : List Nat) (size : Nat)
    (wf wu : MsgObj → Nat → Nat → Outcome (MsgObj × List Nat))
    (sf su : MsgObj → List Nat → Nat → Nat → Outcome MsgObj) :
    msg_wait K msg size = K.msg_waitFor msg size K.INFINITE ∧
    msg_send K msg data size = K.msg_sendFor msg data size K.INFINITE ∧
    msg_takeISR K msg size = K.msg_take msg size ∧
    msg_giveISR K msg data size = K.msg_give msg data size ∧
    msg_pushISR K msg data size = K.msg_push msg data size ∧
    msg_countISR K msg = K.msg_count msg ∧
    msg_spaceISR K msg = K.msg_space msg ∧
    (let K' : MsgApi :=
        { K with msg_waitFor := wf, msg_waitUntil := wu, msg_sendFor := sf, msg_sendUntil := su }
     msg_takeISR K' = msg_takeISR K ∧ msg_giveISR K' = msg_giveISR K ∧
     msg_pushISR K' = msg_pushISR K ∧ msg_countISR K' = msg_countISR K ∧
     msg_spaceISR K' = msg_spaceISR K) :=
  ⟨rfl, rfl, rfl, rfl, rfl, rfl, rfl, rfl, rfl, rfl, rfl, rfl⟩

/-! ## Capacity of `MessageBufferTT` -/

theorem leBytes_length (U n : Nat) : (leBytes U n).length = U := by
  simp [leBytes]

theorem putFrame_payload (U : Nat) (o : MsgObj) (p : List Nat)
    (hfit : p.length + U ≤ o.msg.limit) (hb : IsBytes p) :
    loadBytes o.msg.limit (putFrame U o p p.length).data_.cell (o.msg.tail + U) p.length
      = p := by
  apply List.ext_getElem
  · rw [loadBytes_length]
  · intro k h1 h2
    have e1 := loadBytes_getD o.msg.limit (putFrame U o p p.length).data_.cell p.length
      (o.msg.tail + U) k h2
    rw [List.getD_eq_getElem _ _ h1] at e1
    rw [e1]
    have e2 := storeBytes_inside o.msg.limit (leBytes U p.length ++ p.take p.length)
      o.msg.tail o.data_.cell (U + k)
      (by simp [leBytes_length]; omega) (by simp [leBytes_length]; omega)
    rw [show o.msg.tail + U + k = o.msg.tail + (U + k) by omega]
    show storeBytes o.msg.limit o.msg.tail (leBytes U p.length ++ p.take p.length)
      o.data_.cell ((o.msg.tail + (U + k)) % o.msg.limit) % 256 = p[k]
    rw [e2, List.take_length, List.getD_append_right _ _ _ _ (by simp [leBytes_length])]
    simp only [leBytes_length, Nat.add_sub_cancel_left]
    rw [List.getD_eq_getElem _ _ h2]
    have := hb p[k] (List.getElem_mem h2)
    omega

/-- C7. Frame round trip: on an empty buffer (see `MsgObj.IsEmpty`), for a byte sequence `p`
    with `|p| ≥ 1` and `|p| + prefix ≤ limit`, `msg_send(msg, p, |p|)` returns `|p|`, the
    following `msg_wait(msg, buf, |p|)` returns `|p|` and delivers exactly `p`, and
    afterwards `count == 0` and `size == 0`. -/
theorem C7_round_trip (U IMMEDIATE INFINITE : Nat) (o : MsgObj) (p : List Nat)
    (hE : o.IsEmpty) (hp : 1 ≤ p.length) (hfit : p.length + U ≤ o.msg.limit)
    (hb : IsBytes p) :
    ∃ o₁ o₂,
      msg_send (specApi U IMMEDIATE INFINITE) o p p.length = Outcome.done p.length o₁ ∧
      msg_wait (specApi U IMMEDIATE INFINITE) o₁ p.length = Outcome.done p.length (o₂, p) ∧
      o₂.msg.count = 0 ∧ o₂.msg.size = 0 := by
  obtain ⟨hc, hs, hht, hq⟩ := hE
  have hne : p.length ≠ 0 := by omega
  have hfits : frameFits U o.msg p.length = true := by
    simp only [frameFits, hc, decide_eq_true_eq]
    omega
  have hpay := putFrame_payload U o p hfit hb
  refine ⟨putFrame U o p p.length, (getFrame U (putFrame U o p p.length) p.length).1, ?_, ?_,
    ?_, ?_⟩
  · have hle : ¬ p.length > o.msg.limit := by omega
    simp [msg_send, specApi, spec_sendFor, spec_give, hne, hle, hfits, hq]
  · have c1 : (putFrame U o p p.length).msg.count = U + p.length := by
      simp [putFrame, hc]
    have q1 : (putFrame U o p p.length).msg.queue = 0 := hq
    have s1 : (putFrame U o p p.length).msg.size = p.length := by
      simp [putFrame, hs]
    have h1 : (putFrame U o p p.length).msg.head = o.msg.tail := hht
    have l1 : (putFrame U o p p.length).msg.limit = o.msg.limit := rfl
    have hout : (getFrame U (putFrame U o p p.length) p.length).2 = p := by
      simp only [getFrame, s1, h1, l1, Nat.min_self]
      exact hpay
    have c1ne : (putFrame U o p p.length).msg.count ≠ 0 := by omega
    simp only [msg_wait, specApi, spec_waitFor, spec_take, c1ne, q1, if_false, ne_eq,
      not_true_eq_false]
    rw [hout]
    congr 1
    exact Prod.ext rfl hout
  · simp [getFrame, putFrame, hc, hs]
  · simp [getFrame, putFrame, hc, hs]

/-- Witness for C7: the bytes `01 02 03` through a zeroed 16-byte buffer made by
    `MSG_INIT(16)`, length words of 4 bytes. -/
theorem C7_round_trip_witness :
    (MSG_INIT 0 16).IsEmpty ∧ IsBytes [1, 2, 3] ∧
      ∃ o₁ o₂,
        msg_send (specApi 4 0 4294967295) (MSG_INIT 0 16) [1, 2, 3] 3 = Outcome.done 3 o₁ ∧
        msg_wait (specApi 4 0 4294967295) o₁ 3 = Outcome.done 3 (o₂, [1, 2, 3]) ∧
        o₂.msg.count = 0 ∧ o₂.msg.size = 0 :=
  have hE : (MSG_INIT 0 16).IsEmpty := by
    simp [MsgObj.IsEmpty, MSG_INIT, _MSG_INIT, _MSG_DATA]
  have hB : IsBytes [1, 2, 3] := by
    intro b hb
    simp only [List.mem_cons, List.mem_singleton, List.mem_nil_iff, or_false] at hb
    omega
  ⟨hE, hB, C7_round_trip 4 0 4294967295 (MSG_INIT 0 16) [1, 2, 3] hE (by decide) (by decide) hB⟩

/-! ## Critical section and allocation sequences of `sbreak` -/

theorem sbreak_log (A _endmem size : Int) (h : Heap) :
    (sbreak A _endmem size h).2.log = h.log ++ (Event.lock ::
      (if ptrAdd A h._brk size < _endmem then
        [Event.brkRead, Event.brkRead, Event.brkRead, Event.brkWrite]
       else [Event.brkRead]) ++ [Event.unlock]) := by
  unfold sbreak port_sys_lock port_sys_unlock
  by_cases hc : ptrAdd A h._brk size < _endmem <;> simp [hc]

theorem lockDepth_append (a b : List Event) :
    lockDepth (a ++ b) = lockDepth a + lockDepth b := by
  induction a with
  | nil => simp [lockDepth]
  | cons e es ih =>
    rw [List.cons_append]
    cases e <;> simp only [lockDepth] <;> rw [ih] <;> omega

/-- C12. On both paths `sbreak` appends to the log exactly one `lock`, then only reads and
    writes of the break pointer, then exactly one `unlock`: every access to `_brk` lies
    between the two, and the nesting depth of the critical section at return equals the
    depth at the call. -/
theorem C12_lock_pairing (A _endmem size : Int) (h : Heap) :
    ∃ mid : List Event,
      (sbreak A _endmem size h).2.log = h.log ++ (Event.lock :: mid ++ [Event.unlock]) ∧
      mid = (if ptrAdd A h._brk size < _endmem then
              [Event.brkRead, Event.brkRead, Event.brkRead, Event.brkWrite]
             else [Event.brkRead]) ∧
      (∀ e, e ∈ mid → e = Event.brkRead ∨ e = Event.brkWrite) ∧
      (Event.lock :: mid ++ [Event.unlock]).count Event.lock = 1 ∧
      (Event.lock :: mid ++ [Event.unlock]).count Event.unlock = 1 ∧
      lockDepth (sbreak A _endmem size h).2.log = lockDepth h.log := by
  refine ⟨_, sbreak_log A _endmem size h, rfl, ?_, ?_, ?_, ?_⟩
  · intro e he
    by_cases hc : ptrAdd A h._brk size < _endmem
    · rw [if_pos hc] at he
      simp only [List.mem_cons, List.mem_singleton, List.mem_nil_iff, or_false] at he
      rcases he with h1 | h1 | h1 | h1 <;> simp [h1]
    · rw [if_neg hc] at he
      simp only [List.mem_singleton] at he
      exact Or.inl he
  · by_cases hc : ptrAdd A h._brk size < _endmem
    · rw [if_pos hc]; decide
    · rw [if_neg hc]; decide
  · by_cases hc : ptrAdd A h._brk size < _endmem
    · rw [if_pos hc]; decide
    · rw [if_neg hc]; decide
  · rw [sbreak_log, lockDepth_append]
    by_cases hc : ptrAdd A h._brk size < _endmem
    · rw [if_pos hc]
      simp [lockDepth]
    · rw [if_neg hc]
      simp [lockDepth]

theorem sbreak_step (A _endmem size : Int) (h : Heap)
    (h0 : 0 ≤ h._brk + size) (h1 : h._brk + size < A) :
    CallStep _endmem h._brk
      { size := size, result := (sbreak A _endmem size h).1,
        brk := (sbreak A _endmem size h).2._brk } := by
  unfold CallStep
  rw [sbreak_fst, sbreak_brk, ptrAdd_eq A h._brk size h0 h1]
  by_cases hc : h._brk + size < _endmem
  · left; simp [hc]
  · right; simp [hc]

/-- Without pointer overflow a call with `size ≥ 0` does not lower the break. -/
theorem sbreak_brk_ge (A _endmem size : Int) (h : Heap)
    (hs : 0 ≤ size) (hb : 0 ≤ h._brk) (h1 : h._brk + size < A) :
    h._brk ≤ (sbreak A _endmem size h).2._brk := by
  rw [sbreak_brk, ptrAdd_eq A h._brk size (by omega) h1]
  split <;> omega

theorem sbreakSeq_chain (A _endmem : Int) (sizes : List Int) :
    ∀ h : Heap, 0 ≤ h._brk → (∀ s, s ∈ sizes → 0 ≤ s) → NoOverflow A _endmem sizes h →
      CallChain _endmem h._brk (sbreakSeq A _endmem sizes h) := by
  induction sizes with
  | nil => intro h _ _ _; exact True.intro
  | cons size rest ih =>
    intro h hb hsz hov
    have hs : 0 ≤ size := hsz size (by simp)
    obtain ⟨hov1, hov2⟩ := hov
    refine ⟨hs, sbreak_step A _endmem size h (by omega) hov1, ?_⟩
    have hge := sbreak_brk_ge A _endmem size h hs hb hov1
    exact ih _ (by omega) (fun s hs => hsz s (by simp [hs])) hov2

/-- In a chain the break never decreases, stays below `_endmem`, and a non-null result is
    the break before the call, with the whole region below `_endmem`. -/
theorem CallChain_mem (_endmem : Int) (cs : List Call) :
    ∀ b : Int, CallChain _endmem b cs → ∀ c, c ∈ cs →
      b ≤ c.brk ∧ (b < _endmem → c.brk < _endmem) ∧
      (c.result ≠ NULL → b ≤ c.result ∧ c.result + c.size < _endmem ∧
        c.brk = c.result + c.size) := by
  induction cs with
  | nil => intro b _ c hc; simp at hc
  | cons d ds ih =>
    intro b hch c hc
    obtain ⟨hsz, hstep, htail⟩ := hch
    have hd : b ≤ d.brk ∧ (b < _endmem → d.brk < _endmem) ∧
        (d.result ≠ NULL → b ≤ d.result ∧ d.result + d.size < _endmem ∧
          d.brk = d.result + d.size) := by
      rcases hstep with ⟨h1, h2, h3⟩ | ⟨h1, h2, h3⟩
      · refine ⟨by omega, fun _ => by omega, fun _ => ⟨by omega, by omega, by omega⟩⟩
      · exact ⟨by omega, fun _ => by omega, fun hn => absurd h2 hn⟩
    rcases List.mem_cons.mp hc with h0 | h0
    · rw [h0]; exact hd
    · obtain ⟨i1, i2, i3⟩ := ih d.brk htail c h0
      refine ⟨by omega, fun hb => i2 (hd.2.1 hb), fun hn => ?_⟩
      obtain ⟨j1, j2, j3⟩ := i3 hn
      exact ⟨by omega, j2, j3⟩

/-- Splitting a chain: the second part is a chain from the break left by the first part,
    which is the starting break if that was positive and every call of the first part
    returned `NULL`. -/
theorem CallChain_split (_endmem : Int) (l₁ l₂ : List Call) :
    ∀ b : Int, CallChain _endmem b (l₁ ++ l₂) →
      ∃ b', CallChain _endmem b' l₂ ∧ b ≤ b' ∧
        ((∀ c, c ∈ l₁ → c.result = NULL) → 0 < b → b' = b) := by
  induction l₁ with
  | nil => intro b h; exact ⟨b, h, le_refl b, fun _ _ => rfl⟩
  | cons d ds ih =>
    intro b h
    rw [List.cons_append] at h
    obtain ⟨hsz, hstep, htail⟩ := h
    obtain ⟨b', hch, hle, hsame⟩ := ih d.brk htail
    refine ⟨b', hch, ?_, ?_⟩
    · rcases hstep with ⟨_, _, h3⟩ | ⟨_, _, h3⟩ <;> omega
    · intro hnull hpos
      have hd : d.result = NULL := hnull d (by simp)
      have hbrk : d.brk = b := by
        rcases hstep with ⟨_, h2, _⟩ | ⟨_, _, h3⟩
        · rw [hd] at h2
          unfold NULL at h2
          omega
        · exact h3
      have := hsame (fun c hc => hnull c (by simp [hc])) (by omega)
      omega

/-- C14. For a non-empty heap `[_startmem, _endmem)` at non-negative addresses and every
    sequence of `sbreak` calls with `size ≥ 0` and no pointer overflow, starting from the
    initial state: the break always satisfies `_startmem ≤ b < _endmem`; every non-null
    result `r` for a request of `s` bytes satisfies `_startmem ≤ r` and `r + s < _endmem`;
    the regions `[r, r+s)` of two calls with non-null results do not overlap, the later one
    starting at or after the end of the earlier one and exactly there when no call in
    between returned a region; and a request with `b + size = _endmem` is rejected. -/
theorem C14_regions (A _startmem _endmem : Int) (sizes : List Int)
    (haddr : 0 ≤ _startmem) (hheap : _startmem < _endmem) (hsz : ∀ s, s ∈ sizes → 0 ≤ s)
    (hov : NoOverflow A _endmem sizes (Heap.init _startmem)) :
    (_startmem ≤ (Heap.init _startmem)._brk ∧ (Heap.init _startmem)._brk < _endmem) ∧
    (∀ c, c ∈ sbreakSeq A _endmem sizes (Heap.init _startmem) →
      _startmem ≤ c.brk ∧ c.brk < _endmem) ∧
    (∀ c, c ∈ sbreakSeq A _endmem sizes (Heap.init _startmem) → c.result ≠ NULL →
      _startmem ≤ c.result ∧ c.result + c.size < _endmem) ∧
    (∀ pre c₁ mid c₂ post,
      sbreakSeq A _endmem sizes (Heap.init _startmem) = pre ++ c₁ :: (mid ++ c₂ :: post) →
      c₁.result ≠ NULL → c₂.result ≠ NULL →
        c₁.result + c₁.size ≤ c₂.result ∧
        (∀ x, ¬ (c₁.result ≤ x ∧ x < c₁.result + c₁.size ∧
                 c₂.result ≤ x ∧ x < c₂.result + c₂.size)) ∧
        ((∀ c, c ∈ mid → c.result = NULL) → c₂.result = c₁.result + c₁.size)) ∧
    (∀ (h : Heap) (size : Int), h._brk + size = _endmem → h._brk + size < A →
      (sbreak A _endmem size h).1 = NULL ∧ (sbreak A _endmem size h).2._brk = h._brk) := by
  have hchain : CallChain _endmem _startmem
      (sbreakSeq A _endmem sizes (Heap.init _startmem)) :=
    sbreakSeq_chain A _endmem sizes (Heap.init _startmem) haddr hsz hov
  generalize sbreakSeq A _endmem sizes (Heap.init _startmem) = calls at hchain ⊢
  have hmem := CallChain_mem _endmem calls _startmem hchain
  refine ⟨⟨le_refl _, hheap⟩, ?_, ?_, ?_, ?_⟩
  · intro c hc
    obtain ⟨h1, h2, _⟩ := hmem c hc
    exact ⟨h1, h2 hheap⟩
  · intro c hc hn
    obtain ⟨_, _, h3⟩ := hmem c hc
    exact ⟨(h3 hn).1, (h3 hn).2.1⟩
  · intro pre c₁ mid c₂ post hsplit hn₁ hn₂
    rw [hsplit] at hchain
    obtain ⟨b₁, hch₁, hle₁, _⟩ := CallChain_split _endmem pre _ _startmem hchain
    obtain ⟨hs₁, hstep₁, htail₁⟩ := hch₁
    have hc₁ : c₁.result = b₁ ∧ c₁.brk = b₁ + c₁.size := by
      rcases hstep₁ with ⟨_, h2, h3⟩ | ⟨_, h2, _⟩
      · exact ⟨h2, h3⟩
      · exact absurd h2 hn₁
    have hpos : 0 < c₁.brk := by
      have : c₁.result ≠ 0 := hn₁
      omega
    obtain ⟨_, _, h3⟩ := CallChain_mem _endmem _ c₁.brk htail₁ c₂ (by simp)
    obtain ⟨k1, _, _⟩ := h3 hn₂
    obtain ⟨b₂, hch₂, _, hsame⟩ := CallChain_split _endmem mid _ c₁.brk htail₁
    obtain ⟨_, hstep₂, _⟩ := hch₂
    have hc₂ : c₂.result = b₂ := by
      rcases hstep₂ with ⟨_, h2, _⟩ | ⟨_, h2, _⟩
      · exact h2
      · exact absurd h2 hn₂
    refine ⟨by omega, fun x => by omega, fun hnull => ?_⟩
    have := hsame hnull hpos
    omega
  · intro h size hfull hlt
    rw [sbreak_fst, sbreak_brk, ptrAdd_eq A h._brk size (by omega) hlt]
    have hc : ¬ h._brk + size < _endmem := by omega
    simp [hc]

theorem noOverflow_example : NoOverflow 65536 200 [10, 200, 20] (Heap.init 100) := by
  refine ⟨by decide, ?_, ?_, True.intro⟩
  · show (sbreak 65536 200 10 (Heap.init 100)).2._brk + 200 < 65536
    decide
  · show (sbreak 65536 200 200 (sbreak 65536 200 10 (Heap.init 100)).2).2._brk + 20 < 65536
    decide

/-- Witness for C14: 16-bit pointers, heap `[100, 200)`, requests of 10, 200 and 20 bytes. -/
theorem C14_regions_witness :
    (0 : Int) ≤ 100 ∧ (100 : Int) < 200 ∧
      NoOverflow 65536 200 [10, 200, 20] (Heap.init 100) ∧
      (∀ c, c ∈ sbreakSeq 65536 200 [10, 200, 20] (Heap.init 100) →
        100 ≤ c.brk ∧ c.brk < 200) :=
  ⟨by decide, by decide, noOverflow_example,
    (C14_regions 65536 100 200 [10, 200, 20] (by decide) (by decide)
      (fun s hs => by
        simp only [List.mem_cons, List.mem_singleton, List.mem_nil_iff, or_false] at hs
        omega) noOverflow_example).2.1⟩

theorem save_m0_untouched (s : Cpu) :
    (save_m0 s).r1 = s.r1 ∧ (save_m0 s).r2 = s.r2 ∧ (save_m0 s).r12 = s.r12 ∧
    (save_m0 s).fp = s.fp ∧ (save_m0 s).pc = s.pc := by
  unfold save_m0
  simp only [flagN_lsl29]
  by_cases hb : s.lr.testBit 2 = true <;> simp [hb]

theorem save_m3_untouched (s : Cpu) :
    (save_m3 s).r1 = s.r1 ∧ (save_m3 s).r2 = s.r2 ∧ (save_m3 s).r12 = s.r12 ∧
    (save_m3 s).fp = s.fp ∧ (save_m3 s).pc = s.pc := by
  unfold save_m3
  simp only [flagZ_and4]
  by_cases hb : s.lr.testBit 2 = true <;> simp [hb]

theorem restore_m0_untouched (t : Cpu) :
    (restore_m0 t).r0 = add32 t.r0 36 ∧ (restore_m0 t).r1 = t.r1 ∧
    (restore_m0 t).r2 = t.r2 ∧ (restore_m0 t).r12 = t.r12 ∧ (restore_m0 t).fp = t.fp := by
  have asp : add32 (add32 (sub32 (add32 (add32 t.r0 16) 20) 36) 16) 20 = add32 t.r0 36 := by
    unfold sub32 add32; omega
  unfold restore_m0
  simp only [flagN_lsl29, asp]
  split <;> simp

theorem restore_m3_untouched (t : Cpu) :
    (restore_m3 t).r0 = add32 t.r0 36 ∧ (restore_m3 t).r1 = t.r1 ∧
    (restore_m3 t).r2 = t.r2 ∧ (restore_m3 t).r12 = t.r12 ∧ (restore_m3 t).fp = t.fp := by
  unfold restore_m3 exit_m3 ldmia_r4_r11_lr
  simp only [flagZ_and4]
  split <;> simp

theorem bl_fields (core : Cpu → Clobber) (t : Cpu) :
    (bl core t).r0 = (core t).r0 % 4294967296 ∧ (bl core t).r1 = (core t).r1 % 4294967296 ∧
    (bl core t).r2 = (core t).r2 % 4294967296 ∧ (bl core t).r12 = (core t).r12 % 4294967296 ∧
    (bl core t).mem = (core t).mem ∧ (bl core t).msp = t.msp ∧ (bl core t).psp = t.psp ∧
    (bl core t).fp = (fun i => if i < 16 then (core t).fpLow i else t.fp i) :=
  ⟨rfl, rfl, rfl, rfl, rfl, rfl, rfl, rfl⟩

theorem save_low_regs (s : Cpu) :
    ((save_m0 s).r3 = s.r8 ∧ (save_m0 s).r4 = s.r9 ∧ (save_m0 s).r5 = s.r10 ∧
      (save_m0 s).r6 = s.r11 ∧ (save_m0 s).r7 = s.lr) ∧
    ((save_m3 s).r3 = s.r3 ∧ (save_m3 s).r4 = s.r4 ∧ (save_m3 s).r5 = s.r5 ∧
      (save_m3 s).r6 = s.r6 ∧ (save_m3 s).r7 = s.r7) := by
  constructor
  · unfold save_m0
    simp only [flagN_lsl29]
    by_cases hb : s.lr.testBit 2 = true <;> simp [hb]
  · unfold save_m3
    simp only [flagZ_and4]
    by_cases hb : s.lr.testBit 2 = true <;> simp [hb]

/-- The two restore sequences run from states that agree on `r0`, the stack pointers and
    the 36 bytes of the frame at `r0`: the exits agree on `r0`, `r4 .. r11`, `lr`, `pc`,
    `PSP` and `MSP`. -/
theorem restore_agree (ta tb : Cpu) (h0 : ta.r0 = tb.r0) (hm : ta.msp = tb.msp)
    (hp : ta.psp = tb.psp)
    (hf : ∀ k, k < 36 →
      ta.mem ((ta.r0 + k) % 4294967296) = tb.mem ((ta.r0 + k) % 4294967296)) :
    (restore_m0 ta).r0 = (restore_m3 tb).r0 ∧
    ((restore_m0 ta).r4 = (restore_m3 tb).r4 ∧ (restore_m0 ta).r5 = (restore_m3 tb).r5 ∧
      (restore_m0 ta).r6 = (restore_m3 tb).r6 ∧ (restore_m0 ta).r7 = (restore_m3 tb).r7 ∧
      (restore_m0 ta).r8 = (restore_m3 tb).r8 ∧ (restore_m0 ta).r9 = (restore_m3 tb).r9 ∧
      (restore_m0 ta).r10 = (restore_m3 tb).r10 ∧
      (restore_m0 ta).r11 = (restore_m3 tb).r11 ∧
      (restore_m0 ta).lr = (restore_m3 tb).lr ∧
      (restore_m0 ta).psp = (restore_m3 tb).psp ∧
      (restore_m0 ta).msp = (restore_m3 tb).msp) ∧
    (restore_m0 ta).pc = (restore_m3 tb).pc := by
  obtain ⟨x4, x5, x6, x7, x8, x9, x10, x11, xlr, xpc, _, xpsp, xmsp⟩ := restore_m0_spec ta
  obtain ⟨y4, y5, y6, y7, y8, y9, y10, y11, ylr, ypc, _, ypsp, ymsp⟩ := restore_m3_spec tb
  obtain ⟨u0, _⟩ := restore_m0_untouched ta
  obtain ⟨v0, _⟩ := restore_m3_untouched tb
  have ld : ∀ j, j + 4 ≤ 36 → loadWord ta.mem (ta.r0 + j) = loadWord tb.mem (tb.r0 + j) := by
    intro j hj
    rw [← h0]
    apply loadWord_congr
    intro k hk
    have := hf (j + k) (by omega)
    rw [show ta.r0 + j + k = ta.r0 + (j + k) by omega]
    exact this
  have l0 := ld 0 (by omega)
  rw [Nat.add_zero, Nat.add_zero] at l0
  rw [l0] at x4
  rw [ld 4 (by omega)] at x5
  rw [ld 8 (by omega)] at x6
  rw [ld 12 (by omega)] at x7
  rw [ld 16 (by omega)] at x8
  rw [ld 20 (by omega)] at x9
  rw [ld 24 (by omega)] at x10
  rw [ld 28 (by omega)] at x11
  rw [ld 32 (by omega)] at xlr
  have elr : (restore_m0 ta).lr = (restore_m3 tb).lr := xlr.trans ylr.symm
  rw [elr] at xpsp xmsp xpc
  refine ⟨(u0.trans (by rw [h0])).trans v0.symm,
    ⟨x4.trans y4.symm, x5.trans y5.symm, x6.trans y6.symm, x7.trans y7.symm,
      x8.trans y8.symm, x9.trans y9.symm, x10.trans y10.symm, x11.trans y11.symm, elr,
      ?_, ?_⟩, xpc.trans ypc.symm⟩
  · by_cases hbit : (restore_m3 tb).lr.testBit 2 = true
    · exact ((xpsp hbit).1.trans (by rw [h0])).trans (ypsp hbit).1.symm
    · have hf' : (restore_m3 tb).lr.testBit 2 = false := by simpa using hbit
      exact ((xmsp hf').2.trans hp).trans (ymsp hf').2.symm
  · by_cases hbit : (restore_m3 tb).lr.testBit 2 = true
    · exact ((xpsp hbit).2.trans hm).trans (ypsp hbit).2.symm
    · have hf' : (restore_m3 tb).lr.testBit 2 = false := by simpa using hbit
      exact ((xmsp hf').1.trans (by rw [h0])).trans (ymsp hf').1.symm

/-- C13, counterexample. With a callee whose prologue is `push {r4}` and which returns the
    pointer it received, at `entryPSP` (`MSP = 0x20002000`, `r4 = 104`, `r9 = 109`): the
    Cortex-M0 sequence has moved `r9` into `r4` before the call and the Cortex-M3 sequence
    has not, so the word at `MSP - 4` is 109 after the one handler and 104 after the other:
    the two variants do not leave the same memory contents. -/
theorem C13_counterexample :
    (PendSV_save Build.cortexM0 entryPSP).r4 = 109 ∧
    (PendSV_save Build.cortexM3 entryPSP).r4 = 104 ∧
    loadWord (PendSV_Handler Build.cortexM0 corePush entryPSP).mem (536879104 - 4) = 109 ∧
    loadWord (PendSV_Handler Build.cortexM3 corePush entryPSP).mem (536879104 - 4) = 104 ∧
    (PendSV_Handler Build.cortexM0 corePush entryPSP).mem
      ≠ (PendSV_Handler Build.cortexM3 corePush entryPSP).mem := by
  have h1 : loadWord (PendSV_Handler Build.cortexM0 corePush entryPSP).mem (536879104 - 4)
      = 109 := by decide
  have h2 : loadWord (PendSV_Handler Build.cortexM3 corePush entryPSP).mem (536879104 - 4)
      = 104 := by decide
  refine ⟨by decide, by decide, h1, h2, fun h => ?_⟩
  rw [h] at h1
  rw [h1] at h2
  exact absurd h2 (by decide)

/-- C13, amended. For every entry state the Cortex-M0 and the Cortex-M3+ (no FPU) sequences
    pass the same `r0`, memory, `MSP` and `PSP` to `core_tsk_handler`, but not the same
    `r3 .. r7` (the Cortex-M0 sequence has moved `r8 .. r11, lr` there).  For every behaviour
    of `core_tsk_handler` the memory at exit is the memory the callee left.  If the callee
    returns the same `r0` and leaves the same 36 bytes of the incoming frame in both
    builds, the exits have the same `r0`, `r4 .. r11`, `lr`, `pc`, `PSP` and `MSP`; if its
    whole result is the same in both builds, the exits also have the same memory, `r1`,
    `r2`, `r12` and floating-point file, so that they differ at most in `r3` and the flags. -/
theorem C13_variants_equivalent (core : Cpu → Clobber) (s : Cpu) :
    let a := PendSV_save Build.cortexM0 s
    let b := PendSV_save Build.cortexM3 s
    let ea := PendSV_Handler Build.cortexM0 core s
    let eb := PendSV_Handler Build.cortexM3 core s
    (a.r0 = b.r0 ∧ a.mem = b.mem ∧ a.msp = b.msp ∧ a.psp = b.psp) ∧
    ((a.r3 = s.r8 ∧ a.r4 = s.r9 ∧ a.r5 = s.r10 ∧ a.r6 = s.r11 ∧ a.r7 = s.lr) ∧
      (b.r3 = s.r3 ∧ b.r4 = s.r4 ∧ b.r5 = s.r5 ∧ b.r6 = s.r6 ∧ b.r7 = s.r7)) ∧
    (ea.mem = (core a).mem ∧ eb.mem = (core b).mem) ∧
    ((core a).r0 % 4294967296 = (core b).r0 % 4294967296 →
      (∀ k, k < 36 →
        (core a).mem (((core a).r0 % 4294967296 + k) % 4294967296)
          = (core b).mem (((core a).r0 % 4294967296 + k) % 4294967296)) →
      ea.r0 = eb.r0 ∧
      (ea.r4 = eb.r4 ∧ ea.r5 = eb.r5 ∧ ea.r6 = eb.r6 ∧ ea.r7 = eb.r7 ∧ ea.r8 = eb.r8 ∧
        ea.r9 = eb.r9 ∧ ea.r10 = eb.r10 ∧ ea.r11 = eb.r11 ∧ ea.lr = eb.lr ∧
        ea.psp = eb.psp ∧ ea.msp = eb.msp) ∧
      ea.pc = eb.pc) ∧
    (core a = core b →
      ea.mem = eb.mem ∧
      (ea.r4 = eb.r4 ∧ ea.r5 = eb.r5 ∧ ea.r6 = eb.r6 ∧ ea.r7 = eb.r7 ∧ ea.r8 = eb.r8 ∧
        ea.r9 = eb.r9 ∧ ea.r10 = eb.r10 ∧ ea.r11 = eb.r11 ∧ ea.lr = eb.lr ∧
        ea.psp = eb.psp ∧ ea.msp = eb.msp) ∧
      (ea.r0 = eb.r0 ∧ ea.r1 = eb.r1 ∧ ea.r2 = eb.r2 ∧ ea.r12 = eb.r12 ∧ ea.pc = eb.pc ∧
        ea.fp = eb.fp)) := by
  intro a b ea eb
  have hr0 : a.r0 = b.r0 := (save_m0_r0 s).trans (save_m3_r0 s).symm
  have hmem : a.mem = b.mem := (save_m0_mem s).trans (save_m3_mem s).symm
  have hmsp : a.msp = b.msp := (save_m0_msp s).trans (save_m3_msp s).symm
  have hpsp : a.psp = b.psp := (save_m0_psp s).trans (save_m3_psp s).symm
  obtain ⟨a1, a2, a12, afp, _⟩ := save_m0_untouched s
  obtain ⟨b1, b2, b12, bfp, _⟩ := save_m3_untouched s
  obtain ⟨p0, p1, p2, p12, pmem, pmsp, ppsp, pfp⟩ := bl_fields core a
  obtain ⟨q0, q1, q2, q12, qmem, qmsp, qpsp, qfp⟩ := bl_fields core b
  have tmsp : (bl core a).msp = (bl core b).msp := (pmsp.trans hmsp).trans qmsp.symm
  have tpsp : (bl core a).psp = (bl core b).psp := (ppsp.trans hpsp).trans qpsp.symm
  obtain ⟨_, _, _, _, _, _, _, _, _, _, xmem, _, _⟩ := restore_m0_spec (bl core a)
  obtain ⟨_, _, _, _, _, _, _, _, _, _, ymem, _, _⟩ := restore_m3_spec (bl core b)
  have regs : (core a).r0 % 4294967296 = (core b).r0 % 4294967296 →
      (∀ k, k < 36 →
        (core a).mem (((core a).r0 % 4294967296 + k) % 4294967296)
          = (core b).mem (((core a).r0 % 4294967296 + k) % 4294967296)) →
      ea.r0 = eb.r0 ∧
      (ea.r4 = eb.r4 ∧ ea.r5 = eb.r5 ∧ ea.r6 = eb.r6 ∧ ea.r7 = eb.r7 ∧ ea.r8 = eb.r8 ∧
        ea.r9 = eb.r9 ∧ ea.r10 = eb.r10 ∧ ea.r11 = eb.r11 ∧ ea.lr = eb.lr ∧
        ea.psp = eb.psp ∧ ea.msp = eb.msp) ∧
      ea.pc = eb.pc := by
    intro h0 hf
    apply restore_agree (bl core a) (bl core b) (by rw [p0, q0, h0]) tmsp tpsp
    intro k hk
    rw [p0, pmem, qmem]
    exact hf k hk
  refine ⟨⟨hr0, hmem, hmsp, hpsp⟩, save_low_regs s, ⟨xmem.trans pmem, ymem.trans qmem⟩,
    regs, ?_⟩
  intro hc
  obtain ⟨e0, eregs, epc⟩ := regs (by rw [hc]) (fun k _ => by rw [hc])
  obtain ⟨_, u1, u2, u12, ufp⟩ := restore_m0_untouched (bl core a)
  obtain ⟨_, v1, v2, v12, vfp⟩ := restore_m3_untouched (bl core b)
  rw [hc] at p1 p2 p12 pmem pfp
  rw [show a.fp = s.fp from afp] at pfp
  rw [show b.fp = s.fp from bfp] at qfp
  exact ⟨((xmem.trans pmem).trans qmem.symm).trans ymem.symm, eregs,
    ⟨e0, (u1.trans (p1.trans q1.symm)).trans v1.symm,
      (u2.trans (p2.trans q2.symm)).trans v2.symm,
      (u12.trans (p12.trans q12.symm)).trans v12.symm, epc,
      (ufp.trans (pfp.trans qfp.symm)).trans vfp.symm⟩⟩

/-! ## The FPU build -/

theorem save_fpu_r0 (s : Cpu) :
    (save_fpu s).r0 = sub32 (outgoingSP s) (frameSize Build.fpu s.lr) := by
  unfold save_fpu outgoingSP frameSize
  simp only [flagZ_and4, flagZ_and16]
  by_cases hb : s.lr.testBit 2 = true <;> by_cases hc : s.lr.testBit 4 = true <;>
    simp [hb, hc] <;> unfold sub32 <;> omega

theorem save_fpu_psp (s : Cpu) : (save_fpu s).psp = s.psp := by
  unfold save_fpu
  simp only [flagZ_and4, flagZ_and16]
  by_cases hb : s.lr.testBit 2 = true <;> by_cases hc : s.lr.testBit 4 = true <;> simp [hb, hc]

theorem save_fpu_fp (s : Cpu) : (save_fpu s).fp = s.fp := by
  unfold save_fpu
  simp only [flagZ_and4, flagZ_and16]
  by_cases hb : s.lr.testBit 2 = true <;> by_cases hc : s.lr.testBit 4 = true <;> simp [hb, hc]

theorem save_fpu_mem_int (s : Cpu) (h4 : s.lr.testBit 4 = true) :
    (save_fpu s).mem = storeWords (sub32 (outgoingSP s) 36)
      [s.r4, s.r5, s.r6, s.r7, s.r8, s.r9, s.r10, s.r11, s.lr] s.mem := by
  unfold save_fpu outgoingSP
  simp only [flagZ_and4, flagZ_and16]
  by_cases hb : s.lr.testBit 2 = true <;> simp [hb, h4]

theorem save_fpu_mem_fp (s : Cpu) (h4 : s.lr.testBit 4 = false) :
    (save_fpu s).mem = storeWords (sub32 (outgoingSP s) 100)
      [s.r4, s.r5, s.r6, s.r7, s.r8, s.r9, s.r10, s.r11, s.lr]
      (storeWords (sub32 (outgoingSP s) 64) (fpHigh s.fp) s.mem) := by
  unfold save_fpu outgoingSP
  simp only [flagZ_and4, flagZ_and16]
  by_cases hb : s.lr.testBit 2 = true <;> simp [hb, h4] <;>
    apply storeWords_addr_mod <;> unfold sub32 <;> omega

theorem fpHigh_length (fp : Nat → Nat) : (fpHigh fp).length = 16 := by
  simp [fpHigh]

theorem fpHigh_get (fp : Nat → Nat) (i : Nat) (hi : i < 16) :
    (fpHigh fp)[i]? = some (fp (16 + i)) := by
  simp [fpHigh, List.getElem?_map, List.getElem?_range hi]

/-- Integer part of the frame of the FPU build, at the bottom of the frame. -/
theorem save_fpu_loads_int (s : Cpu) (i w : Nat)
    (hi : [s.r4, s.r5, s.r6, s.r7, s.r8, s.r9, s.r10, s.r11, s.lr][i]? = some w) :
    loadWord (save_fpu s).mem (sub32 (outgoingSP s) (frameSize Build.fpu s.lr) + 4 * i)
      = w % 4294967296 := by
  by_cases h4 : s.lr.testBit 4 = true
  · rw [save_fpu_mem_int s h4]
    simp only [frameSize, h4, if_true]
    exact loadWord_storeWords _ _ _ i w (by simp) hi
  · have h4' : s.lr.testBit 4 = false := by simpa using h4
    rw [save_fpu_mem_fp s h4']
    simp only [frameSize, h4', Bool.false_eq_true, if_false]
    exact loadWord_storeWords _ _ _ i w (by simp) hi

/-- Floating-point part of the frame of the FPU build: `s16 .. s31` in the 64 bytes below
    the outgoing stack pointer when bit 4 of `lr` is clear. -/
theorem save_fpu_loads_fp (s : Cpu) (h4 : s.lr.testBit 4 = false) (i : Nat) (hi : i < 16) :
    loadWord (save_fpu s).mem (sub32 (outgoingSP s) 64 + 4 * i)
      = s.fp (16 + i) % 4294967296 := by
  rw [save_fpu_mem_fp s h4]
  rw [← loadWord_storeWords (fpHigh s.fp) (sub32 (outgoingSP s) 64) s.mem i (s.fp (16 + i))
    (by rw [fpHigh_length]; omega) (fpHigh_get s.fp i hi)]
  apply loadWord_congr
  intro k hk
  apply storeWords_outside
  intro j hj
  simp only [List.length_cons, List.length_nil] at hj
  unfold sub32
  omega

theorem save_fpu_outside (s : Cpu) (x : Nat)
    (hx : ∀ k, k < frameSize Build.fpu s.lr →
      x ≠ (sub32 (outgoingSP s) (frameSize Build.fpu s.lr) + k) % 4294967296) :
    (save_fpu s).mem x = s.mem x := by
  by_cases h4 : s.lr.testBit 4 = true
  · rw [save_fpu_mem_int s h4]
    simp only [frameSize, h4, if_true] at hx
    apply storeWords_outside
    intro k hk
    exact hx k (by simpa using hk)
  · have h4' : s.lr.testBit 4 = false := by simpa using h4
    rw [save_fpu_mem_fp s h4']
    simp only [frameSize, h4', Bool.false_eq_true, if_false] at hx
    rw [storeWords_outside, storeWords_outside]
    · intro k hk
      rw [fpHigh_length] at hk
      have := hx (k + 36) (by omega)
      unfold sub32 at this ⊢
      omega
    · intro k hk
      simp only [List.length_cons, List.length_nil] at hk
      exact hx k (by omega)

theorem PendSV_save_r0_all (b : Build) (s : Cpu) :
    (PendSV_save b s).r0 = sub32 (outgoingSP s) (frameSize b s.lr) := by
  cases b with
  | cortexM0 => exact save_m0_r0 s
  | cortexM3 => exact save_m3_r0 s
  | fpu => exact save_fpu_r0 s

theorem PendSV_save_psp_all (b : Build) (s : Cpu) : (PendSV_save b s).psp = s.psp := by
  cases b with
  | cortexM0 => exact save_m0_psp s
  | cortexM3 => exact save_m3_psp s
  | fpu => exact save_fpu_psp s

theorem PendSV_save_outside_all (b : Build) (s : Cpu) (x : Nat)
    (hx : ∀ k, k < frameSize b s.lr →
      x ≠ (sub32 (outgoingSP s) (frameSize b s.lr) + k) % 4294967296) :
    (PendSV_save b s).mem x = s.mem x := by
  cases b with
  | cortexM0 => exact save_frame_outside Build.cortexM0 (by decide) s x hx
  | cortexM3 => exact save_frame_outside Build.cortexM3 (by decide) s x hx
  | fpu => exact save_fpu_outside s x hx

theorem restore_fpu_spec (t : Cpu) :
    let e := restore_fpu t
    e.r4 = loadWord t.mem t.r0 ∧ e.r5 = loadWord t.mem (t.r0 + 4) ∧
    e.r6 = loadWord t.mem (t.r0 + 8) ∧ e.r7 = loadWord t.mem (t.r0 + 12) ∧
    e.r8 = loadWord t.mem (t.r0 + 16) ∧ e.r9 = loadWord t.mem (t.r0 + 20) ∧
    e.r10 = loadWord t.mem (t.r0 + 24) ∧ e.r11 = loadWord t.mem (t.r0 + 28) ∧
    e.lr = loadWord t.mem (t.r0 + 32) ∧ e.pc = e.lr ∧ e.mem = t.mem ∧
    e.fp = (if e.lr.testBit 4 then t.fp else loadFpHigh t.mem (add32 t.r0 36) t.fp) ∧
    (e.lr.testBit 2 = true →
      e.psp = add32 t.r0 (frameSize Build.fpu e.lr) ∧ e.msp = t.msp) ∧
    (e.lr.testBit 2 = false →
      e.msp = add32 t.r0 (frameSize Build.fpu e.lr) ∧ e.psp = t.psp) := by
  have a100 : add32 (add32 t.r0 36) 64 = add32 t.r0 100 := by unfold add32; omega
  unfold restore_fpu exit_m3 ldmia_r4_r11_lr frameSize
  simp only [flagZ_and4, flagZ_and16]
  by_cases hb : (loadWord t.mem (t.r0 + 32)).testBit 2 = true <;>
    by_cases hc : (loadWord t.mem (t.r0 + 32)).testBit 4 = true <;> simp [hb, hc, a100]

/-! ## Stack-pointer selection -/

theorem PendSV_restore_sp_all (b : Build) (t : Cpu) :
    let e := PendSV_restore b t
    e.lr = loadWord t.mem (t.r0 + 32) ∧
    (e.lr.testBit 2 = true → e.psp = add32 t.r0 (frameSize b e.lr) ∧ e.msp = t.msp) ∧
    (e.lr.testBit 2 = false → e.msp = add32 t.r0 (frameSize b e.lr) ∧ e.psp = t.psp) := by
  cases b with
  | cortexM0 =>
    obtain ⟨_, _, _, _, _, _, _, _, hlr, _, _, hp, hm⟩ := restore_m0_spec t
    exact ⟨hlr, hp, hm⟩
  | cortexM3 =>
    obtain ⟨_, _, _, _, _, _, _, _, hlr, _, _, hp, hm⟩ := restore_m3_spec t
    exact ⟨hlr, hp, hm⟩
  | fpu =>
    obtain ⟨_, _, _, _, _, _, _, _, hlr, _, _, _, hp, hm⟩ := restore_fpu_spec t
    exact ⟨hlr, hp, hm⟩

theorem frameSize_le_mspDrop (b : Build) (lr : Nat) : frameSize b lr ≤ mspDrop b := by
  cases b <;> simp only [frameSize, mspDrop] <;> first | exact le_refl _ | (split <;> omega)

/-- C11, counterexample. FPU build, `lr = 0xFFFFFFF9` (bit 2 clear, bit 4 set),
    `MSP = 0x20002000`: the frame is the 36 bytes below `MSP` (`r0 = MSP - 36` at the call,
    and the restore step of the same frame writes `r0 + 36` back to `MSP`), but `MSP` at the
    call is lowered by 100. -/
theorem C11_counterexample :
    entryMSP.lr.testBit 2 = false ∧ entryMSP.msp = 536879104 ∧
      (PendSV_save Build.fpu entryMSP).r0 = 536879104 - 36 ∧
      (PendSV_save Build.fpu entryMSP).msp = 536879104 - 100 ∧
      (PendSV_Handler Build.fpu coreSame entryMSP).msp = (536879104 - 36) + 36 := by
  decide

/-- C11, amended. In every build, with `F` the frame size (36 bytes; in the FPU build 100
    bytes when bit 4 of `lr` is clear): at save the frame is placed in the `F` bytes below
    `PSP` when bit 2 of the entry `lr` is set and below `MSP` otherwise, `PSP` is not
    written, and `MSP` is unchanged in the first case and lowered in the second case by
    36 bytes (by 100 bytes in the FPU build, whatever bit 4 is), which is never less than
    `F`.  At restore, with `p` in `r0` and `F` taken from the restored `lr` (the word at
    `p + 32`), `p + F` is written to `PSP` when bit 2 of the restored `lr` is set and to
    `MSP` otherwise, and the other stack pointer keeps its value. -/
theorem C11_sp_selection (b : Build) (s t : Cpu) :
    (let S := outgoingSP s
     let c := PendSV_save b s
     S = (if s.lr.testBit 2 then s.psp else s.msp) ∧
     c.r0 = sub32 S (frameSize b s.lr) ∧
     (∀ x, (∀ k, k < frameSize b s.lr →
         x ≠ (sub32 S (frameSize b s.lr) + k) % 4294967296) → c.mem x = s.mem x) ∧
     c.psp = s.psp ∧
     (s.lr.testBit 2 = true → c.msp = s.msp) ∧
     (s.lr.testBit 2 = false → c.msp = sub32 s.msp (mspDrop b)) ∧
     frameSize b s.lr ≤ mspDrop b ∧
     (b ≠ Build.fpu ∨ s.lr.testBit 4 = false → frameSize b s.lr = mspDrop b)) ∧
    (let p := t.r0
     let e := PendSV_restore b t
     e.lr = loadWord t.mem (p + 32) ∧
     (e.lr.testBit 2 = true → e.psp = add32 p (frameSize b e.lr) ∧ e.msp = t.msp) ∧
     (e.lr.testBit 2 = false → e.msp = add32 p (frameSize b e.lr) ∧ e.psp = t.psp)) := by
  refine ⟨⟨rfl, PendSV_save_r0_all b s, PendSV_save_outside_all b s, PendSV_save_psp_all b s,
    ?_, ?_, frameSize_le_mspDrop b s.lr, ?_⟩, PendSV_restore_sp_all b t⟩
  · intro h2
    rw [PendSV_save_msp_all, if_pos h2]
  · intro h2
    rw [PendSV_save_msp_all, if_neg (by simp [h2])]
  · intro h
    cases b with
    | cortexM0 => rfl
    | cortexM3 => rfl
    | fpu =>
      rcases h with h | h
      · exact absurd rfl h
      · simp [frameSize, mspDrop, h]

theorem intFrame_lt (s : Cpu) (hwf : s.WF) (i w : Nat) (hi : (intFrame s)[i]? = some w) :
    w < 4294967296 := by
  obtain ⟨h4, h5, h6, h7, h8, h9, h10, h11, hlr, _, _⟩ := hwf
  have hmem : w ∈ intFrame s := List.getElem?_mem hi
  simp only [intFrame, List.mem_cons, List.mem_singleton, List.mem_nil_iff, or_false] at hmem
  rcases hmem with h | h | h | h | h | h | h | h | h <;> rw [h] <;> assumption

theorem intFrame_getD (s : Cpu) (i : Nat) (hi : i < 9) :
    (intFrame s)[i]? = some ((intFrame s).getD i 0) := by
  have hlen : i < (intFrame s).length := by simpa [intFrame] using hi
  rw [List.getD_eq_getElem _ _ hlen, List.getElem?_eq_getElem hlen]

/-- Integer frame of the FPU build under `Cpu.WF`: the loads return the registers. -/
theorem save_fpu_intFrame (s : Cpu) (hwf : s.WF) (i : Nat) (hi : i < 9) :
    loadWord (save_fpu s).mem (sub32 (outgoingSP s) (frameSize Build.fpu s.lr) + 4 * i)
      = (intFrame s).getD i 0 := by
  have h := intFrame_getD s i hi
  rw [save_fpu_loads_int s i _ h, Nat.mod_eq_of_lt (intFrame_lt s hwf i _ h)]

theorem restore_fpu_intFrame (t : Cpu) (i : Nat) (hi : i < 9) :
    (intFrame (restore_fpu t)).getD i 0 = loadWord t.mem (t.r0 + 4 * i) := by
  obtain ⟨h4, h5, h6, h7, h8, h9, h10, h11, hlr, _⟩ := restore_fpu_spec t
  simp only [intFrame]
  interval_cases i <;> simp [h4, h5, h6, h7, h8, h9, h10, h11, hlr]

/-- Round trip of the FPU build: if the callee returns the pointer it received and leaves
    the bytes of the frame unchanged, the exit state has the entry values of `r4 .. r11`,
    `lr`, `s16 .. s31`, `PSP` and `MSP`. -/
theorem fpu_round_trip (core : Cpu → Clobber) (s : Cpu) (hwf : s.WF) (hfp : s.WFfp)
    (hret : (core (save_fpu s)).r0 = (save_fpu s).r0)
    (hframe : ∀ k, k < frameSize Build.fpu s.lr →
      (core (save_fpu s)).mem (((save_fpu s).r0 + k) % 4294967296)
        = (save_fpu s).mem (((save_fpu s).r0 + k) % 4294967296)) :
    intFrame (restore_fpu (bl core (save_fpu s))) = intFrame s ∧
    (∀ i, 16 ≤ i → i < 32 → (restore_fpu (bl core (save_fpu s))).fp i = s.fp i) ∧
    (restore_fpu (bl core (save_fpu s))).psp = s.psp ∧
    (restore_fpu (bl core (save_fpu s))).msp = s.msp := by
  have hr0 := save_fpu_r0 s
  have hF : 36 ≤ frameSize Build.fpu s.lr ∧ frameSize Build.fpu s.lr ≤ 100 ∧
      (s.lr.testBit 4 = false → frameSize Build.fpu s.lr = 100) := by
    simp only [frameSize]
    split <;> simp_all
  obtain ⟨hF1, hF2, hF3⟩ := hF
  have hS : outgoingSP s < 4294967296 := by
    obtain ⟨_, _, _, _, _, _, _, _, _, hm, hp⟩ := id hwf
    unfold outgoingSP
    split <;> assumption
  obtain ⟨p0, _, _, _, pmem, pmsp, ppsp, pfp⟩ := bl_fields core (save_fpu s)
  have tr0 : (bl core (save_fpu s)).r0
      = sub32 (outgoingSP s) (frameSize Build.fpu s.lr) := by
    rw [p0, hret, hr0]
    unfold sub32
    omega
  rw [hr0] at hframe
  have ld : ∀ j, j + 4 ≤ frameSize Build.fpu s.lr →
      loadWord (bl core (save_fpu s)).mem
          (sub32 (outgoingSP s) (frameSize Build.fpu s.lr) + j)
        = loadWord (save_fpu s).mem
          (sub32 (outgoingSP s) (frameSize Build.fpu s.lr) + j) := by
    intro j hj
    rw [pmem]
    apply loadWord_congr
    intro k hk
    have := hframe (j + k) (by omega)
    rw [show sub32 (outgoingSP s) (frameSize Build.fpu s.lr) + j + k
      = sub32 (outgoingSP s) (frameSize Build.fpu s.lr) + (j + k) by omega]
    exact this
  have ints : ∀ i, i < 9 →
      loadWord (bl core (save_fpu s)).mem ((bl core (save_fpu s)).r0 + 4 * i)
        = (intFrame s).getD i 0 := by
    intro i hi
    rw [tr0, ld (4 * i) (by omega)]
    exact save_fpu_intFrame s hwf i hi
  obtain ⟨x4, x5, x6, x7, x8, x9, x10, x11, xlr, _, _, xfp, xpsp, xmsp⟩ :=
    restore_fpu_spec (bl core (save_fpu s))
  have e4 := x4.trans (by simpa [intFrame] using ints 0 (by omega))
  have e5 := x5.trans (by simpa [intFrame] using ints 1 (by omega))
  have e6 := x6.trans (by simpa [intFrame] using ints 2 (by omega))
  have e7 := x7.trans (by simpa [intFrame] using ints 3 (by omega))
  have e8 := x8.trans (by simpa [intFrame] using ints 4 (by omega))
  have e9 := x9.trans (by simpa [intFrame] using ints 5 (by omega))
  have e10 := x10.trans (by simpa [intFrame] using ints 6 (by omega))
  have e11 := x11.trans (by simpa [intFrame] using ints 7 (by omega))
  have elr := xlr.trans (by simpa [intFrame] using ints 8 (by omega))
  have hSF : add32 (sub32 (outgoingSP s) (frameSize Build.fpu s.lr))
      (frameSize Build.fpu s.lr) = outgoingSP s := by
    unfold add32 sub32
    omega
  rw [elr, tr0, hSF] at xpsp xmsp
  rw [elr] at xfp
  refine ⟨?_, ?_, ?_, ?_⟩
  · simp only [intFrame, e4, e5, e6, e7, e8, e9, e10, e11, elr]
  · intro i h16 h32
    rw [xfp]
    by_cases h4 : s.lr.testBit 4 = true
    · rw [if_pos h4, pfp, save_fpu_fp]
      simp [show ¬ i < 16 by omega]
    · have h4' : s.lr.testBit 4 = false := by simpa using h4
      have hF100 := hF3 h4'
      rw [hF100] at tr0 ld
      rw [if_neg h4]
      simp only [loadFpHigh, h16, h32, and_self, if_true]
      rw [tr0]
      have hm : (add32 (sub32 (outgoingSP s) 100) 36 + 4 * (i - 16)) % 4294967296
          = (sub32 (outgoingSP s) 100 + (36 + 4 * (i - 16))) % 4294967296 := by
        unfold add32
        omega
      rw [loadWord_mod _ _ _ hm, ld (36 + 4 * (i - 16)) (by omega)]
      have hm2 : (sub32 (outgoingSP s) 100 + (36 + 4 * (i - 16))) % 4294967296
          = (sub32 (outgoingSP s) 64 + 4 * (i - 16)) % 4294967296 := by
        unfold sub32
        omega
      rw [loadWord_mod _ _ _ hm2, save_fpu_loads_fp s h4' (i - 16) (by omega),
        show 16 + (i - 16) = i by omega, Nat.mod_eq_of_lt (hfp i h16 h32)]
  · by_cases hbit : s.lr.testBit 2 = true
    · rw [(xpsp hbit).1]
      unfold outgoingSP
      rw [if_pos hbit]
    · rw [(xmsp (by simpa using hbit)).2, ppsp, save_fpu_psp]
  · by_cases hbit : s.lr.testBit 2 = true
    · rw [(xpsp hbit).2, pmsp, save_fpu_msp, if_pos hbit]
    · rw [(xmsp (by simpa using hbit)).1]
      unfold outgoingSP
      rw [if_neg hbit]

theorem entryFP_WF : entryFP.WF ∧ entryFP.WFfp := by
  constructor
  · unfold Cpu.WF entryFP entryPSP
    norm_num
  · intro i _ h32
    show 1000 + i < 4294967296
    omega

/-- C15. FPU build of `PendSV_Handler`, with `S` the outgoing stack pointer.  If bit 4 of the
    entry `lr` is clear, `s16 .. s31` are stored in the 64 bytes from `S-64`, `r4 .. r11, lr`
    in the 36 bytes from `S-100`, `core_tsk_handler` receives `S-100` and nothing outside
    these 100 bytes is written; if bit 4 is set only `r4 .. r11, lr` are stored, in the 36
    bytes from `S-36`, and it receives `S-36`.  At restore `s16 .. s31` are loaded from the
    frame when bit 4 of the restored `lr` is clear and keep their values when it is set.
    Hence, when `core_tsk_handler` returns the pointer it was given, with the frame bytes as
    they were saved, `r4 .. r11`, `lr`, `s16 .. s31`, `PSP` and `MSP` have their entry values
    at exit, for both values of bit 4. -/
theorem C15_fpu_frame (core : Cpu → Clobber) (s t : Cpu) (hwf : s.WF) (hfp : s.WFfp) :
    let S := outgoingSP s
    let c := PendSV_save Build.fpu s
    let e := PendSV_Handler Build.fpu core s
    (s.lr.testBit 4 = false →
      (∀ i, i < 16 → loadWord c.mem (sub32 S 64 + 4 * i) = s.fp (16 + i)) ∧
      (∀ i, i < 9 → loadWord c.mem (sub32 S 100 + 4 * i) = (intFrame s).getD i 0) ∧
      c.r0 = sub32 S 100 ∧
      (∀ x, (∀ k, k < 100 → x ≠ (sub32 S 100 + k) % 4294967296) → c.mem x = s.mem x)) ∧
    (s.lr.testBit 4 = true →
      (∀ i, i < 9 → loadWord c.mem (sub32 S 36 + 4 * i) = (intFrame s).getD i 0) ∧
      c.r0 = sub32 S 36 ∧
      (∀ x, (∀ k, k < 36 → x ≠ (sub32 S 36 + k) % 4294967296) → c.mem x = s.mem x)) ∧
    (let x := PendSV_restore Build.fpu t
     (x.lr.testBit 4 = false → ∀ i, 16 ≤ i → i < 32 →
        x.fp i = loadWord t.mem (add32 t.r0 36 + 4 * (i - 16))) ∧
     (x.lr.testBit 4 = true → x.fp = t.fp)) ∧
    ((core c).r0 = c.r0 →
     (∀ k, k < frameSize Build.fpu s.lr →
        (core c).mem ((c.r0 + k) % 4294967296) = c.mem ((c.r0 + k) % 4294967296)) →
     intFrame e = intFrame s ∧ (∀ i, 16 ≤ i → i < 32 → e.fp i = s.fp i) ∧
       e.psp = s.psp ∧ e.msp = s.msp) := by
  intro S c e
  refine ⟨?_, ?_, ?_, fun hret hframe => fpu_round_trip core s hwf hfp hret hframe⟩
  · intro h4
    have hF : frameSize Build.fpu s.lr = 100 := by simp [frameSize, h4]
    have h1 := save_fpu_intFrame s hwf
    have h2 := save_fpu_r0 s
    have h3 := save_fpu_outside s
    rw [hF] at h1 h2 h3
    refine ⟨fun i hi => ?_, h1, h2, h3⟩
    exact (save_fpu_loads_fp s h4 i hi).trans
      (Nat.mod_eq_of_lt (hfp (16 + i) (by omega) (by omega)))
  · intro h4
    have hF : frameSize Build.fpu s.lr = 36 := by simp [frameSize, h4]
    have h1 := save_fpu_intFrame s hwf
    have h2 := save_fpu_r0 s
    have h3 := save_fpu_outside s
    rw [hF] at h1 h2 h3
    exact ⟨h1, h2, h3⟩
  · obtain ⟨_, _, _, _, _, _, _, _, _, _, _, xfp, _, _⟩ := restore_fpu_spec t
    show ((restore_fpu t).lr.testBit 4 = false → ∀ i, 16 ≤ i → i < 32 →
        (restore_fpu t).fp i = loadWord t.mem (add32 t.r0 36 + 4 * (i - 16))) ∧
      ((restore_fpu t).lr.testBit 4 = true → (restore_fpu t).fp = t.fp)
    constructor
    · intro h4 i h16 h32
      rw [xfp, if_neg (by simp [h4])]
      simp [loadFpHigh, h16, h32]
    · intro h4
      rw [xfp, if_pos h4]

/-- Witness for C15 at `entryFP` with a core that keeps the current task: the callee
    receives `PSP - 100`, and `s16` and `PSP` have their entry values at exit. -/
theorem C15_fpu_frame_witness :
    entryFP.WF ∧ entryFP.WFfp ∧
      (PendSV_save Build.fpu entryFP).r0 = sub32 (outgoingSP entryFP) 100 ∧
      (PendSV_Handler Build.fpu coreSame entryFP).fp 16 = 1016 ∧
      (PendSV_Handler Build.fpu coreSame entryFP).psp = 536875008 :=
  have h := C15_fpu_frame coreSame entryFP entryFP entryFP_WF.1 entryFP_WF.2
  have hr := h.2.2.2 rfl (fun _ _ => rfl)
  ⟨entryFP_WF.1, entryFP_WF.2, (h.1 (by decide)).2.2.1,
    hr.2.1 16 (by decide) (by decide), hr.2.2.1⟩

end StateOS
